import Mathlib

/-!
Verification of the data-cleaning core of a multinational-retail ETL pipeline.

The repository's cleaning layer (`data_cleaning.py`) is a collection of
pandas passes over an in-memory tabular dataset.  We shallowly embed it:

* a dataset (`Df`) is a list of rows; a row is an association list from
  column names to `Cell` values (the pandas column/NaN model);
* Python strings are `List Char`; Python floats are modelled exactly as
  rationals (`ℚ`), with `float('NaN')` folded into the missing-value cell;
* code that can raise (`float()`, `dateutil.parser.parse`, an uncaught
  `astype`, a missing column) returns `Except PyErr _`; code whose
  exceptions are caught in the source is total and models the caught path.

Every definition is translated from the source of `DataCleaning`; the only
definitions written from the specification's words are the ones whose doc
comments say so (the per-value date-chain used to compare against the
per-column pandas semantics of `convert_dates`).
-/

/-- A Python exception kind, as distinguished by the source's handlers. -/
inductive PyErr where
  | keyError
  | valueError
  | typeError
  | indexError
  deriving DecidableEq, Repr

/-- One pandas cell: a string, an integer, a float (modelled exactly as a
rational, with NaN folded into `null`), a categorical value, a calendar
date, or the missing-value marker NaN/None. -/
inductive Cell where
  | null
  | str (s : List Char)
  | int (n : ℤ)
  | float (q : ℚ)
  | cat (s : List Char)
  | date (y m d : ℕ)
  deriving DecidableEq, Repr

/-- Shorthand for building a string cell from a string literal. -/
def cstr (s : String) : Cell := Cell.str s.data

/-- Whitespace recognizer for Python `str.split()` / `float()` stripping. -/
def isWs (c : Char) : Bool := c = ' ' || c = '\t' || c = '\n' || c = '\r'

/-- Fueled worker for `replaceSub`; the fuel is the length of the text, and
each step consumes one character or one pattern occurrence. -/
def replaceSubGo (pat repl : List Char) : ℕ → List Char → List Char
  | _, [] => []
  | 0, s => s
  | fuel + 1, c :: cs =>
    if pat.isPrefixOf (c :: cs) then
      repl ++ replaceSubGo pat repl fuel (cs.drop (pat.length - 1))
    else
      c :: replaceSubGo pat repl fuel cs

/-- Python `str.replace(pat, repl)`: replace every non-overlapping
occurrence of `pat`, scanning left to right (for nonempty `pat`, which is
the only way the source uses it). -/
def replaceSub (pat repl s : List Char) : List Char :=
  if pat = [] then s else replaceSubGo pat repl s.length s

/-- Fueled worker for `splitSub`. -/
def splitSubGo (sep : List Char) : ℕ → List Char → List (List Char)
  | _, [] => [[]]
  | 0, s => [s]
  | fuel + 1, c :: cs =>
    if sep.isPrefixOf (c :: cs) then
      [] :: splitSubGo sep fuel (cs.drop (sep.length - 1))
    else
      match splitSubGo sep fuel cs with
      | [] => [[c]]
      | p :: ps => (c :: p) :: ps

/-- Python `str.split(sep)` for a nonempty literal separator: split at every
occurrence, keeping empty segments. -/
def splitSub (sep s : List Char) : List (List Char) :=
  if sep = [] then [s] else splitSubGo sep s.length s

/-- Does `pat` occur as a contiguous substring? (`pat in s` in Python.) -/
def containsSub (pat s : List Char) : Bool :=
  s.tails.any (fun t => pat.isPrefixOf t)

/-- Python `str.endswith`. -/
def endsWith (suf s : List Char) : Bool := suf.isSuffixOf s

/-- Accumulator worker for `splitWs`. -/
def splitWsGo : List Char → List Char → List (List Char)
  | acc, [] => if acc = [] then [] else [acc.reverse]
  | acc, c :: cs =>
    if isWs c then
      if acc = [] then splitWsGo [] cs else acc.reverse :: splitWsGo [] cs
    else
      splitWsGo (c :: acc) cs

/-- Python `str.split()` with no argument: split on runs of whitespace and
drop empty segments. -/
def splitWs (s : List Char) : List (List Char) := splitWsGo [] s

/-- `' '.join(parts)`. -/
def joinSpace (parts : List (List Char)) : List Char :=
  (parts.intersperse [' ']).flatten

/-- Worker for `pyTitle`, tracking whether the previous character was a
cased (alphabetic) one. -/
def pyTitleGo : Bool → List Char → List Char
  | _, [] => []
  | prevAlpha, c :: cs =>
    (if c.isAlpha then (if prevAlpha then c.toLower else c.toUpper) else c)
      :: pyTitleGo c.isAlpha cs

/-- Python `str.title()`: uppercase every letter that follows a non-letter,
lowercase the rest (ASCII model). -/
def pyTitle (s : List Char) : List Char := pyTitleGo false s

/-- Digit run to a natural number; `none` on an empty or non-digit run. -/
def digitsToNat (s : List Char) : Option ℕ :=
  if s ≠ [] ∧ s.all Char.isDigit then
    some (s.foldl (fun acc c => acc * 10 + (c.toNat - '0'.toNat)) 0)
  else none

/-- Python `int(s)` on a string: optional surrounding whitespace, optional
sign, then a nonempty digit run. -/
def pyInt (s : List Char) : Option ℤ :=
  let t := (s.dropWhile isWs).reverse.dropWhile isWs |>.reverse
  match t with
  | '-' :: rest => (digitsToNat rest).map (fun n => -(n : ℤ))
  | '+' :: rest => (digitsToNat rest).map (fun n => (n : ℤ))
  | rest => (digitsToNat rest).map (fun n => (n : ℤ))

/-- The digit-run/fraction/exponent part of Python `float(s)`, after sign
removal: `ddd`, `ddd.`, `.ddd`, `ddd.ddd`, each optionally followed by
`e`/`E`, an optional sign and a digit run.  Returns the exact rational. -/
def pyFloatBody (t : List Char) : Option ℚ :=
  let mant := t.takeWhile (fun c => c ≠ 'e' ∧ c ≠ 'E')
  let rest := t.drop mant.length
  let intPart := mant.takeWhile (· ≠ '.')
  let fracTail := mant.drop intPart.length
  let fracOk : Option (List Char) :=
    match fracTail with
    | [] => some []
    | '.' :: fp => if fp.all Char.isDigit then some fp else none
    | _ => none
  match fracOk with
  | none => none
  | some fp =>
    if intPart.all Char.isDigit ∧ (intPart ≠ [] ∨ fp ≠ []) then
      let base : ℚ :=
        ((intPart ++ fp).foldl (fun acc c => acc * 10 + (c.toNat - '0'.toNat)) 0 : ℕ) /
          ((10 : ℚ) ^ fp.length)
      match rest with
      | [] => some base
      | _ :: expPart =>
        let (esign, edigits) :=
          match expPart with
          | '-' :: ds => ((-1 : ℤ), ds)
          | '+' :: ds => ((1 : ℤ), ds)
          | ds => ((1 : ℤ), ds)
        match digitsToNat edigits with
        | some e => some (base * (10 : ℚ) ^ (esign * (e : ℤ)))
        | none => none
    else none

/-- Python `float(s)` on a string, as an exact rational: strip whitespace,
take an optional sign, then `pyFloatBody`.  (`inf`/`nan` literals are out
of scope here; the one NaN the pipeline produces is handled where the
source produces it, in the float coercion of `N/A` longitudes.) -/
def pyFloat (s : List Char) : Option ℚ :=
  let t := (s.dropWhile isWs).reverse.dropWhile isWs |>.reverse
  match t with
  | '-' :: rest => (pyFloatBody rest).map (fun q => -q)
  | '+' :: rest => pyFloatBody rest
  | rest => pyFloatBody rest

deriving instance DecidableEq for Except

/-- A value returned by `convert_product_weights`: a float (kilograms) or
the original string passed through unparsed. -/
abbrev WeightVal := ℚ ⊕ List Char

/-- `DataCleaning.convert_product_weights`, translated clause by clause
from the source: multipack (`'x' in s`), stray trailing period, `kg`, `g`,
`ml`, `oz`, else pass the string through.  The multipack return evaluates
left to right as Python does — `float(factors[0])` first (`ValueError` on
failure), only then the `factors[1]` subscript (`IndexError` when the
split produced a single element and the first float somehow succeeded),
then `float(factors[1])` — exactly as the unguarded source would. -/
def convertProductWeights (s : List Char) : Except PyErr WeightVal :=
  if containsSub ['x'] s then
    let s1 := replaceSub ['g'] [] s
    let factors := splitSub [' ', 'x', ' '] s1
    match factors with
    | [] => Except.error PyErr.indexError
    | f0 :: rest =>
      match pyFloat f0 with
      | none => Except.error PyErr.valueError
      | some q0 =>
        match rest with
        | [] => Except.error PyErr.indexError
        | f1 :: _ =>
          match pyFloat f1 with
          | some q1 => Except.ok (Sum.inl (q0 * q1 / 1000))
          | none => Except.error PyErr.valueError
  else if endsWith ['.'] s then
    let s1 := replaceSub ['g', ' ', '.'] [] s
    match pyFloat s1 with
    | some q => Except.ok (Sum.inl (q / 1000))
    | none => Except.error PyErr.valueError
  else if endsWith ['k', 'g'] s then
    let s1 := replaceSub ['k', 'g'] [] s
    match pyFloat s1 with
    | some q => Except.ok (Sum.inl q)
    | none => Except.error PyErr.valueError
  else if endsWith ['g'] s then
    let s1 := replaceSub ['g'] [] s
    match pyFloat s1 with
    | some q => Except.ok (Sum.inl (q / 1000))
    | none => Except.error PyErr.valueError
  else if endsWith ['m', 'l'] s then
    let s1 := replaceSub ['m', 'l'] [] s
    match pyFloat s1 with
    | some q => Except.ok (Sum.inl (q / 1000))
    | none => Except.error PyErr.valueError
  else if endsWith ['o', 'z'] s then
    let s1 := replaceSub ['o', 'z'] [] s
    match pyFloat s1 with
    | some q => Except.ok (Sum.inl (q * (283495 / 10000000)))
    | none => Except.error PyErr.valueError
  else
    Except.ok (Sum.inr s)

example : convertProductWeights "100g".data = Except.ok (Sum.inl (1 / 10)) := by
  simp +decide [convertProductWeights, containsSub, endsWith, replaceSub, replaceSubGo,
    pyFloat, pyFloatBody, digitsToNat, isWs]
  norm_num
example : convertProductWeights "2 x 200g".data = Except.ok (Sum.inl (2 / 5)) := by
  simp +decide [convertProductWeights, containsSub, endsWith, replaceSub, replaceSubGo,
    splitSub, splitSubGo, pyFloat, pyFloatBody, digitsToNat, isWs]
  norm_num
example : convertProductWeights "garbage".data = Except.ok (Sum.inr "garbage".data) := by
  simp +decide [convertProductWeights, containsSub, endsWith]
example : convertProductWeights "box".data = Except.error PyErr.valueError := by
  simp +decide [convertProductWeights, containsSub, endsWith, replaceSub, replaceSubGo,
    splitSub, splitSubGo, pyFloat, pyFloatBody, isWs]

/-! ## Calendar dates and the parsers behind `convert_dates` -/

/-- Full English month names, lowercased, as `strptime`'s `%B` accepts. -/
def monthNames : List (List Char) :=
  ["january".data, "february".data, "march".data, "april".data, "may".data,
   "june".data, "july".data, "august".data, "september".data, "october".data,
   "november".data, "december".data]

/-- Linear search through the month names, returning a 1-based index. -/
def monthLookup (t : List Char) : List (List Char) → ℕ → Option ℕ
  | [], _ => none
  | n :: ns, i => if t = n then some i else monthLookup t ns (i + 1)

/-- Case-insensitive full month-name lookup (1-based). -/
def parseMonthName (s : List Char) : Option ℕ :=
  monthLookup (s.map Char.toLower) monthNames 1

/-- Gregorian leap-year test. -/
def isLeap (y : ℕ) : Bool := y % 4 = 0 && (y % 100 ≠ 0 || y % 400 = 0)

/-- Days in a month, for `strptime`'s day-of-month validation. -/
def daysInMonth (y m : ℕ) : ℕ :=
  if m = 2 then (if isLeap y then 29 else 28)
  else if m = 4 ∨ m = 6 ∨ m = 9 ∨ m = 11 then 30
  else 31

/-- Is `(y, m, d)` a real calendar date? -/
def validDate (y m d : ℕ) : Bool :=
  1 ≤ m && m ≤ 12 && 1 ≤ d && d ≤ daysInMonth y m

/-- A nonempty all-digit numeral of at most `maxLen` digits. -/
def parseNatLen (maxLen : ℕ) (s : List Char) : Option ℕ :=
  if s.length ≤ maxLen then digitsToNat s else none

/-- `strptime` format `%Y-%m-%d`. -/
def parseISO (s : List Char) : Option (ℕ × ℕ × ℕ) :=
  match splitSub ['-'] s with
  | [ys, ms, ds] =>
    match parseNatLen 4 ys, parseNatLen 2 ms, parseNatLen 2 ds with
    | some y, some m, some d => if validDate y m d then some (y, m, d) else none
    | _, _, _ => none
  | _ => none

/-- `strptime` format `%Y %B %d` (year, full month name, day). -/
def parseYBD (s : List Char) : Option (ℕ × ℕ × ℕ) :=
  match splitWs s with
  | [ys, bs, ds] =>
    match parseNatLen 4 ys, parseMonthName bs, parseNatLen 2 ds with
    | some y, some m, some d => if validDate y m d then some (y, m, d) else none
    | _, _, _ => none
  | _ => none

/-- `strptime` format `%B %Y %d` (full month name, year, day). -/
def parseBYD (s : List Char) : Option (ℕ × ℕ × ℕ) :=
  match splitWs s with
  | [bs, ys, ds] =>
    match parseMonthName bs, parseNatLen 4 ys, parseNatLen 2 ds with
    | some m, some y, some d => if validDate y m d then some (y, m, d) else none
    | _, _, _ => none
  | _ => none

/-- Model of the permissive parsers the source leans on
(`dateutil.parser.parse` and `pd.to_datetime` without a format), restricted
to the date shapes this repository's data exhibits: the permissive parsers
accept every string the three fixed formats accept, and agree with them. -/
def parsePermissive (s : List Char) : Option (ℕ × ℕ × ℕ) :=
  (parseISO s).orElse fun _ => (parseYBD s).orElse fun _ => parseBYD s

/-! ## The dataset model: rows as association lists of cells -/

/-- A row: column name to cell, in column order. -/
abbrev Row := List (String × Cell)

/-- A dataset: a list of rows (the shared index is implicit in position). -/
abbrev Df := List Row

/-- Read the cell of column `c` (first binding wins, as in a dataframe where
column names are unique). -/
def getCell (r : Row) (c : String) : Option Cell :=
  match r with
  | [] => none
  | (k, v) :: rest => if k = c then some v else getCell rest c

/-- Write the cell of column `c` in place, appending a new column at the end
of the row when `c` is absent (pandas column creation). -/
def setCell (r : Row) (c : String) (v : Cell) : Row :=
  match r with
  | [] => [(c, v)]
  | (k, w) :: rest => if k = c then (c, v) :: rest else (k, w) :: setCell rest c v

/-- Does every row carry column `c`?  (`c in df.columns` for the uniform
frames pandas builds.) -/
def hasCol (df : Df) (c : String) : Bool :=
  df.all (fun r => (getCell r c).isSome)

/-- Option-valued map over a list, failing when any element fails. -/
def omap (f : α → Option β) : List α → Option (List β)
  | [] => some []
  | a :: l =>
    match f a, omap f l with
    | some b, some bs => some (b :: bs)
    | _, _ => none

/-- Apply `f` to column `c` of every row that has it. -/
def mapColAt (c : String) (f : Cell → Cell) (df : Df) : Df :=
  df.map (fun r =>
    match getCell r c with
    | some v => setCell r c (f v)
    | none => r)

/-- A pandas `.str` method lifted to a cell: strings are transformed,
everything else (including NaN) becomes NaN. -/
def strCellMap (f : List Char → List Char) : Cell → Cell
  | .str s => .str (f s)
  | _ => .null

/-- `df[c] = df[c].str.replace(pat, repl)` (literal, non-regex): `KeyError`
when the column is missing, otherwise total. -/
def strReplaceCol (df : Df) (c : String) (pat repl : List Char) : Except PyErr Df :=
  if hasCol df c then .ok (mapColAt c (strCellMap (replaceSub pat repl)) df)
  else .error .keyError

/-! ## Type coercion (`convert_data_types` and the strict `astype` calls) -/

/-- The dtypes the recipes declare. -/
inductive Dtype where
  | string
  | category
  | float64
  | int64
  | int16
  | int8
  deriving DecidableEq, Repr

/-- Rendering of an integer cell as text (for `astype` to string/category). -/
def intRepr (n : ℤ) : List Char := (toString n).data

/-- Rendering of a float cell as text; stands in for Python float repr (its
exact spelling is never load-bearing for the claims). -/
def floatRepr (q : ℚ) : List Char := (toString q).data

/-- Rendering of a date cell as text. -/
def dateRepr (y m d : ℕ) : List Char :=
  (toString y).data ++ '-' :: (toString m).data ++ '-' :: (toString d).data

/-- Does `n` fit the signed width?  The object-column integer casts the
recipes perform raise on out-of-range values rather than silently wrap. -/
def intFits (bits : ℕ) (n : ℤ) : Bool :=
  decide (-(2 ^ (bits - 1)) ≤ n) && decide (n < 2 ^ (bits - 1))

/-- Truncation toward zero (numpy float-to-int cast). -/
def truncQ (q : ℚ) : ℤ := q.num / (q.den : ℤ)

/-- Is the trimmed string a spelling of float NaN? -/
def isNanStr (s : List Char) : Bool :=
  (((s.dropWhile isWs).reverse.dropWhile isWs).reverse.map Char.toLower) = "nan".data

/-- One cell under `astype`: `some` is a successful coercion, `none` the
`ValueError` path (the conversion failures the source exercises raise
`ValueError`, which `convert_data_types` catches). -/
def tryConvertCell : Dtype → Cell → Option Cell
  | .string, .null => some .null
  | .string, .str s => some (.str s)
  | .string, .cat s => some (.str s)
  | .string, .int n => some (.str (intRepr n))
  | .string, .float q => some (.str (floatRepr q))
  | .string, .date y m d => some (.str (dateRepr y m d))
  | .category, .null => some .null
  | .category, .str s => some (.cat s)
  | .category, .cat s => some (.cat s)
  | .category, .int n => some (.cat (intRepr n))
  | .category, .float q => some (.cat (floatRepr q))
  | .category, .date y m d => some (.cat (dateRepr y m d))
  | .float64, .null => some .null
  | .float64, .float q => some (.float q)
  | .float64, .int n => some (.float (n : ℚ))
  | .float64, .str s => if isNanStr s then some .null else (pyFloat s).map .float
  | .float64, .cat s => if isNanStr s then some .null else (pyFloat s).map .float
  | .float64, .date _ _ _ => none
  | .int64, v => tryConvertInt 64 v
  | .int16, v => tryConvertInt 16 v
  | .int8, v => tryConvertInt 8 v
where
  /-- Integer `astype` at a given width. -/
  tryConvertInt (bits : ℕ) : Cell → Option Cell
  | .int n => if intFits bits n then some (.int n) else none
  | .float q => if intFits bits (truncQ q) then some (.int (truncQ q)) else none
  | .str s => (pyInt s).bind fun n => if intFits bits n then some (.int n) else none
  | .cat s => (pyInt s).bind fun n => if intFits bits n then some (.int n) else none
  | _ => none

/-- `astype` on column `c` of one row. -/
def convRow (c : String) (t : Dtype) (r : Row) : Option Row :=
  (getCell r c).bind fun v => (tryConvertCell t v).map (setCell r c)

/-- One guarded step of `convert_data_types`: coerce the whole column, and
on a missing column or a conversion failure leave the frame unchanged
(the source prints a diagnostic in both cases). -/
def astypeStep (c : String) (t : Dtype) (df : Df) : Df :=
  match omap (convRow c t) df with
  | some df2 => df2
  | none => df

/-- `DataCleaning.convert_data_types`. -/
def convertDataTypes (df : Df) (m : List (String × Dtype)) : Df :=
  m.foldl (fun acc ct => astypeStep ct.1 ct.2 acc) df

/-- An unguarded `df[c] = df[c].astype(t)` (as `clean_card_data` does for
`card_number`): `KeyError` on a missing column, `ValueError` on a failed
conversion. -/
def astypeStrict (c : String) (t : Dtype) (df : Df) : Except PyErr Df :=
  if hasCol df c then
    match omap (convRow c t) df with
    | some df2 => .ok df2
    | none => .error .valueError
  else .error .keyError

/-! ## The generic cleaning passes -/

/-- `DataCleaning.remove_null_values`: drop every row in which any cell is
the string sentinel `'NULL'`. -/
def removeNullValues (df : Df) : Df :=
  df.filter (fun r => !(r.any (fun p => p.2 == Cell.str "NULL".data)))

/-- How many rows of `df` are equal to `r`. -/
def rowCount (df : Df) (r : Row) : ℕ :=
  df.countP (fun r2 => r2 == r)

/-- How many rows of `df` share row `r`'s value at column `c`. -/
def colValCount (df : Df) (c : String) (r : Row) : ℕ :=
  df.countP (fun r2 => getCell r2 c == getCell r c)

/-- One `drop_duplicates(subset=[c], keep=False)` step: drop every row
participating in a duplicated value of column `c`. -/
def dropColDupStep (c : String) (df : Df) : Except PyErr Df :=
  if hasCol df c then .ok (df.filter (fun r => colValCount df c r == 1))
  else .error .keyError

/-- `DataCleaning.remove_unique_column_duplicates`: the step above, applied
sequentially column by column. -/
def removeUniqueColumnDuplicates (df : Df) (cols : List String) : Except PyErr Df :=
  cols.foldl (fun acc c => acc.bind (dropColDupStep c)) (.ok df)

/-- `astype('category')` of one cell, as `clean_country_data` applies it
(never fails). -/
def toCatCell : Cell → Cell
  | .null => .null
  | .str s => .cat s
  | .cat s => .cat s
  | .int n => .cat (intRepr n)
  | .float q => .cat (floatRepr q)
  | .date y m d => .cat (dateRepr y m d)

/-- The per-row core of `clean_country_data` with the default valid codes:
categorize, patch the known `GGB` typo to `GB`, then keep the row only if
the code is one of `GB`, `DE`, `US`. -/
def countryRow (r : Row) : Option Row :=
  match getCell r "country_code" with
  | none => none
  | some v =>
    let v1 := toCatCell v
    let v2 := if v1 = Cell.cat "GGB".data then Cell.cat "GB".data else v1
    if v2 = Cell.cat "GB".data ∨ v2 = Cell.cat "DE".data ∨ v2 = Cell.cat "US".data then
      some (setCell r "country_code" v2)
    else none

/-- `DataCleaning.clean_country_data` (default `valid_country_code`):
`KeyError` when `country_code` is missing, otherwise the per-row pipeline
applied to every row. -/
def cleanCountryData (df : Df) : Except PyErr Df :=
  if hasCol df "country_code" then .ok (df.filterMap countryRow)
  else .error .keyError

/-- One fixed-format `pd.to_datetime(col, format=fmt, errors='ignore')`
attempt on one cell: strings must parse, dates and NaN pass through,
anything else makes the whole column attempt fail. -/
def cellFmtParse (p : List Char → Option (ℕ × ℕ × ℕ)) : Cell → Option Cell
  | .null => some .null
  | .date y m d => some (.date y m d)
  | .str s => (p s).map (fun ymd => Cell.date ymd.1 ymd.2.1 ymd.2.2)
  | _ => none

/-- `errors='ignore'` semantics: convert the column only if every cell
converts, otherwise return it unchanged. -/
def tryFormatCol (p : List Char → Option (ℕ × ℕ × ℕ)) (cells : List Cell) : List Cell :=
  match omap (cellFmtParse p) cells with
  | some l => l
  | none => cells

/-- The final `pd.to_datetime(col, errors='coerce').dt.date`: per-cell
permissive parse, unparsable values and non-dates become missing. -/
def coerceDateCell : Cell → Cell
  | .date y m d => .date y m d
  | .str s =>
    match parsePermissive s with
    | some ymd => .date ymd.1 ymd.2.1 ymd.2.2
    | none => .null
  | _ => .null

/-- The body of `DataCleaning.convert_dates` on one column: the three fixed
formats with `errors='ignore'`, then the permissive coercion. -/
def convertDatesCol (cells : List Cell) : List Cell :=
  (tryFormatCol parseBYD (tryFormatCol parseYBD (tryFormatCol parseISO cells))).map
    coerceDateCell

/-- Column `c` of the frame as a cell list (total; callers guard `hasCol`). -/
def getColCells (df : Df) (c : String) : List Cell :=
  df.map (fun r => (getCell r c).getD Cell.null)

/-- Write a cell list back into column `c`, row by row. -/
def setColCells (df : Df) (c : String) (cells : List Cell) : Df :=
  List.zipWith (fun r v => setCell r c v) df cells

/-- `DataCleaning.convert_dates` over the named columns. -/
def convertDates (df : Df) (cols : List String) : Except PyErr Df :=
  cols.foldl
    (fun acc c =>
      acc.bind fun d =>
        if hasCol d c then .ok (setColCells d c (convertDatesCol (getColCells d c)))
        else .error .keyError)
    (.ok df)

/-- Modelled from the spec: the per-value date chain as §4.3 words it — try
the three fixed formats in strict priority order on the value, fall back to
the permissive parser, and coerce anything still unparsed to missing.
This is the statement-side definition `convertDatesCol` is compared with. -/
def specDateCell (v : Cell) : Cell :=
  match v with
  | .str s =>
    match ((parseISO s).orElse fun _ =>
            (parseYBD s).orElse fun _ =>
              (parseBYD s).orElse fun _ => parsePermissive s) with
    | some ymd => .date ymd.1 ymd.2.1 ymd.2.2
    | none => .null
  | .date y m d => .date y m d
  | _ => .null

/-- `DataCleaning.clean_email_addresses`: replace `@@` by `@` in
`email_address`. -/
def cleanEmailAddresses (df : Df) : Except PyErr Df :=
  strReplaceCol df "email_address" "@@".data "@".data

/-- The split/title/upper-join composite `clean_addresses` applies to one
address string: `x[:-2] + [w.upper() for w in x[-2:]]`, space-joined. -/
def addrFinal (s : List Char) : List Char :=
  let toks := splitWs s
  joinSpace (toks.take (toks.length - 2) ++
    (toks.drop (toks.length - 2)).map (List.map Char.toUpper))

/-- `DataCleaning.clean_addresses`: newline to space, `str.title`, then the
split/upper-join step, whose row lambda raises `TypeError` on the NaN that
a non-string address has become by that point. -/
def cleanAddresses (df : Df) : Except PyErr Df :=
  if hasCol df "address" then
    let df1 := mapColAt "address" (strCellMap (replaceSub "\n".data " ".data)) df
    let df2 := mapColAt "address" (strCellMap pyTitle) df1
    match omap
        (fun r =>
          match getCell r "address" with
          | some (.str s) => some (setCell r "address" (Cell.str (addrFinal s)))
          | _ => none)
        df2 with
    | some df3 => .ok df3
    | none => .error .typeError
  else .error .keyError

/-- Final character strip of `clean_phone_numbers`: keep only alphanumerics
and `+`. -/
def phoneStrip (s : List Char) : List Char :=
  s.filter (fun c => c.isAlphanum || c = '+')

/-- `DataCleaning.clean_phone_numbers`.  The extension split mirrors
`str.split('x', expand=True)`: the expanded width is the maximum number of
`x`-separated parts over the rows, the two-column assignment succeeds only
when that width is exactly 2 (otherwise the `ValueError` is caught and no
`phone_ext` column is created), then `(0)` is removed and everything but
alphanumerics and `+` stripped. -/
def cleanPhoneNumbers (df : Df) : Except PyErr Df :=
  if hasCol df "phone_number" then
    let widths := df.map (fun r =>
      match getCell r "phone_number" with
      | some (.str s) => (splitSub ['x'] s).length
      | _ => 1)
    let nCols := widths.foldl Nat.max 0
    let df1 :=
      if nCols = 2 then
        df.map (fun r =>
          match getCell r "phone_number" with
          | some (.str s) =>
            match splitSub ['x'] s with
            | [a] => setCell (setCell r "phone_number" (Cell.str a)) "phone_ext" .null
            | a :: b :: _ =>
              setCell (setCell r "phone_number" (Cell.str a)) "phone_ext" (Cell.str b)
            | [] => r
          | _ => setCell (setCell r "phone_number" .null) "phone_ext" .null)
      else df
    let df2 := mapColAt "phone_number" (strCellMap (replaceSub "(0)".data [])) df1
    .ok (mapColAt "phone_number" (strCellMap phoneStrip) df2)
  else .error .keyError

/-! ## The cards and stores recipes -/

/-- `drop_duplicates(keep=False)`: keep only rows no other row equals. -/
def dropDupKeepFalse (df : Df) : Df :=
  df.filter (fun r => rowCount df r == 1)

/-- `.str.contains('[a-zA-Z?]', na=False)` on one cell. -/
def cardHasAlphaQ : Cell → Bool
  | .str s => s.any (fun c => c.isAlpha || c = '?')
  | _ => false

/-- `df[c] = df[c].apply(parse).dt.date`: every cell must be a string the
permissive parser accepts, otherwise the `apply` raises (`ValueError` for a
bad string; we fold the `TypeError` a non-string raises into the same
error-return, no caller distinguishes them). -/
def parseDateColStrict (df : Df) (c : String) : Except PyErr Df :=
  if hasCol df c then
    match omap
        (fun r =>
          match getCell r c with
          | some (.str s) =>
            (parsePermissive s).map (fun ymd => setCell r c (Cell.date ymd.1 ymd.2.1 ymd.2.2))
          | _ => none)
        df with
    | some df2 => .ok df2
    | none => .error .valueError
  else .error .keyError

/-- `df.dropna()`: drop every row with a missing cell. -/
def dropna (df : Df) : Df :=
  df.filter (fun r => r.all (fun p => !(p.2 == Cell.null)))

/-- `DataCleaning.clean_card_data`, step for step from the source: full-row
duplicate removal, `?`-stripping, letter filter, strict date parse,
`dropna`, strict `int64` cast. -/
def cleanCardData (df : Df) : Except PyErr Df :=
  let df1 := dropDupKeepFalse df
  strReplaceCol df1 "card_number" "?".data [] >>= fun df2 =>
  let df3 := df2.filter (fun r => !cardHasAlphaQ ((getCell r "card_number").getD .null))
  parseDateColStrict df3 "date_payment_confirmed" >>= fun df4 =>
  astypeStrict "card_number" Dtype.int64 (dropna df4)

/-- `df.drop(columns=[c])` (the `KeyError` of a missing `c` is checked at
the call site). -/
def dropColumn (df : Df) (c : String) : Df :=
  df.map (fun r => r.filter (fun p => !(p.1 == c)))

/-- `Series.replace('[a-zA-Z]', '', regex=True)` on one cell: strings lose
their letters, non-strings pass through. -/
def stripLettersCell : Cell → Cell
  | .str s => .str (s.filter (fun c => !c.isAlpha))
  | v => v

/-- `DataCleaning.clean_store_data`, step for step from the source. -/
def cleanStoreData (df : Df) : Except PyErr Df :=
  if hasCol df "lat" then
    cleanCountryData (dropColumn df "lat") >>= fun df2 =>
    strReplaceCol df2 "address" "\n".data ", ".data >>= fun df3 =>
    strReplaceCol df3 "continent" "ee".data [] >>= fun df4 =>
    (if hasCol df4 "staff_numbers" then
      Except.ok (mapColAt "staff_numbers" stripLettersCell df4)
    else Except.error PyErr.keyError) >>= fun df5 =>
    strReplaceCol df5 "longitude" "N/A".data "NaN".data >>= fun df6 =>
    parseDateColStrict df6 "opening_date" >>= fun df7 =>
    Except.ok (convertDataTypes df7
      [("longitude", Dtype.float64), ("latitude", Dtype.float64),
       ("staff_numbers", Dtype.int16)])
  else .error .keyError

/-! ## Basic lemmas: rows, option-maps, string splitting -/

theorem getCell_setCell_self (r : Row) (c : String) (v : Cell) :
    getCell (setCell r c v) c = some v := by
  induction r with
  | nil => simp [setCell, getCell]
  | cons p rest ih =>
    by_cases h : p.1 = c <;> simp [setCell, getCell, h, ih]

theorem getCell_setCell_ne (r : Row) {c c' : String} (v : Cell) (h : c' ≠ c) :
    getCell (setCell r c v) c' = getCell r c' := by
  have h2 : c ≠ c' := Ne.symm h
  induction r with
  | nil => simp [setCell, getCell, h2]
  | cons p rest ih =>
    by_cases hp : p.1 = c
    · simp [setCell, getCell, hp, h2]
    · simp [setCell, getCell, hp, ih]

theorem setCell_self {r : Row} {c : String} {v : Cell} (h : getCell r c = some v) :
    setCell r c v = r := by
  induction r with
  | nil => simp [getCell] at h
  | cons p rest ih =>
    by_cases hp : p.1 = c
    · obtain ⟨k, w⟩ := p
      simp_all [setCell, getCell]
    · simp [getCell, hp] at h
      simp [setCell, hp, ih h]

theorem setCell_setCell_same (r : Row) (c : String) (v w : Cell) :
    setCell (setCell r c v) c w = setCell r c w := by
  induction r with
  | nil => simp [setCell]
  | cons p rest ih =>
    by_cases hp : p.1 = c <;> simp [setCell, hp, ih]

theorem omap_eq_some_iff {f : α → Option β} {l : List α} {l2 : List β} :
    omap f l = some l2 ↔ List.Forall₂ (fun a b => f a = some b) l l2 := by
  induction l generalizing l2 with
  | nil => cases l2 <;> simp [omap]
  | cons a l ih =>
    cases l2 with
    | nil =>
      simp only [List.forall₂_cons_left_iff]
      constructor
      · intro h
        cases hfa : f a <;> cases hl : omap f l <;> simp [omap, hfa, hl] at h
      · rintro ⟨b, l2, _, _, h⟩
        exact absurd h (by simp)
    | cons b l2 =>
      constructor
      · intro h
        cases hfa : f a <;> cases hl : omap f l <;>
          simp [omap, hfa, hl] at h
        exact List.Forall₂.cons (h.1 ▸ hfa) (ih.mp (h.2 ▸ hl))
      · intro h
        cases h with
        | cons hab hl => simp [omap, hab, ih.mpr hl]

theorem omap_length {f : α → Option β} {l : List α} {l2 : List β}
    (h : omap f l = some l2) : l2.length = l.length :=
  (List.Forall₂.length_eq (omap_eq_some_iff.mp h)).symm

theorem omap_eq_some_of_forall {f : α → Option β} {g : α → β} {l : List α}
    (h : ∀ a ∈ l, f a = some (g a)) : omap f l = some (l.map g) := by
  induction l with
  | nil => simp [omap]
  | cons a l ih =>
    simp only [List.map_cons]
    rw [omap, h a (by simp), ih (fun a ha => h a (by simp [ha]))]

/-- Concatenate parts with a separator (the inverse view of `splitSub`). -/
def joinWith (sep : List Char) : List (List Char) → List Char
  | [] => []
  | [p] => p
  | p :: q :: ps => p ++ sep ++ joinWith sep (q :: ps)

theorem splitSubGo_ne_nil (sep : List Char) (fuel : ℕ) (s : List Char) :
    splitSubGo sep fuel s ≠ [] := by
  match fuel, s with
  | _, [] => simp [splitSubGo]
  | 0, _ :: _ => simp [splitSubGo]
  | fuel + 1, c :: cs =>
    by_cases h : sep.isPrefixOf (c :: cs) = true
    · simp [splitSubGo, h]
    · cases hrec : splitSubGo sep fuel cs <;>
        simp [splitSubGo, h, hrec]

theorem isPrefixOf_append_drop {sep l : List Char} (h : sep.isPrefixOf l = true) :
    sep ++ l.drop sep.length = l := by
  obtain ⟨t, ht⟩ := List.isPrefixOf_iff_prefix.mp h
  subst ht
  rw [List.drop_left]

theorem splitSubGo_join (sep : List Char) (hsep : sep ≠ []) (fuel : ℕ) (s : List Char)
    (hfuel : s.length ≤ fuel) : joinWith sep (splitSubGo sep fuel s) = s := by
  induction fuel generalizing s with
  | zero =>
    interval_cases hs : s.length
    · simp [List.length_eq_zero.mp hs, splitSubGo, joinWith]
  | succ fuel ih =>
    match s with
    | [] => simp [splitSubGo, joinWith]
    | c :: cs =>
      by_cases h : sep.isPrefixOf (c :: cs) = true
      · have hlen : (cs.drop (sep.length - 1)).length ≤ fuel := by
          simp only [List.length_drop, List.length_cons] at *
          omega
        have hdrop : cs.drop (sep.length - 1) = (c :: cs).drop sep.length := by
          obtain ⟨m, hm⟩ := Nat.exists_eq_succ_of_ne_zero
            (fun hh => hsep (List.length_eq_zero.mp hh))
          rw [hm]
          simp
        rw [splitSubGo, if_pos h]
        have hne := splitSubGo_ne_nil sep fuel (cs.drop (sep.length - 1))
        cases hrec : splitSubGo sep fuel (cs.drop (sep.length - 1)) with
        | nil => exact absurd hrec hne
        | cons p ps =>
          rw [joinWith]
          rw [← hrec, ih _ hlen, hdrop]
          simpa using isPrefixOf_append_drop h
      · rw [splitSubGo, if_neg h]
        have hlen : cs.length ≤ fuel := by simpa using hfuel
        have hne := splitSubGo_ne_nil sep fuel cs
        cases hrec : splitSubGo sep fuel cs with
        | nil => exact absurd hrec hne
        | cons p ps =>
          have := ih cs hlen
          rw [hrec] at this
          cases ps with
          | nil => simpa [joinWith] using congrArg (c :: ·) this
          | cons q ps => simpa [joinWith] using congrArg (c :: ·) this

theorem splitSub_join {sep s : List Char} (hsep : sep ≠ []) :
    joinWith sep (splitSub sep s) = s := by
  rw [splitSub, if_neg hsep]
  exact splitSubGo_join sep hsep s.length s le_rfl

theorem mem_joinWith {sep : List Char} {parts : List (List Char)} {ch : Char}
    (h : ch ∈ joinWith sep parts) : (∃ p ∈ parts, ch ∈ p) ∨ ch ∈ sep := by
  match parts with
  | [] => simp [joinWith] at h
  | [p] =>
    rw [joinWith] at h
    exact Or.inl ⟨p, by simp, h⟩
  | p :: q :: ps =>
    rw [joinWith] at h
    rcases List.mem_append.mp h with h1 | h2
    · rcases List.mem_append.mp h1 with h3 | h4
      · exact Or.inl ⟨p, by simp, h3⟩
      · exact Or.inr h4
    · rcases mem_joinWith h2 with ⟨p2, hp2, hc⟩ | hs
      · exact Or.inl ⟨p2, by simp [hp2], hc⟩
      · exact Or.inr hs

/-! ## Character-class facts and format disjointness -/

theorem toLower_of_isDigit {c : Char} (h : c.isDigit = true) : Char.toLower c = c := by
  simp [Char.isDigit] at h
  obtain ⟨h1, h2⟩ := h
  simp [Char.toLower]
  intro h3
  exact absurd (le_trans h3 h2) (by decide)

theorem not_isWs_of_isDigit {c : Char} (h : c.isDigit = true) : isWs c = false := by
  cases hw : isWs c with
  | false => rfl
  | true =>
    simp only [isWs, Bool.or_eq_true, decide_eq_true_eq] at hw
    rcases hw with ((h1 | h1) | h1) | h1 <;> subst h1 <;> simp at h

theorem digitsToNat_eq_some {s : List Char} {n : ℕ} (h : digitsToNat s = some n) :
    s ≠ [] ∧ s.all Char.isDigit = true := by
  by_cases hc : s ≠ [] ∧ s.all Char.isDigit = true
  · exact hc
  · rw [digitsToNat, if_neg hc] at h
    exact absurd h (by simp)

theorem parseNatLen_eq_some {k : ℕ} {s : List Char} {n : ℕ}
    (h : parseNatLen k s = some n) : s ≠ [] ∧ s.all Char.isDigit = true := by
  rw [parseNatLen] at h
  by_cases hl : s.length ≤ k
  · exact digitsToNat_eq_some (by rwa [if_pos hl] at h)
  · rw [if_neg hl] at h
    exact absurd h (by simp)

theorem monthLookup_mem {t : List Char} {ns : List (List Char)} {i m : ℕ}
    (h : monthLookup t ns i = some m) : t ∈ ns := by
  induction ns generalizing i with
  | nil => simp [monthLookup] at h
  | cons n ns ih =>
    rw [monthLookup] at h
    by_cases ht : t = n
    · simp [ht]
    · exact List.mem_cons_of_mem _ (ih (by rwa [if_neg ht] at h))

theorem monthName_facts : ∀ n ∈ monthNames, n ≠ [] ∧ n.headI.isDigit = false := by
  decide

theorem parseMonthName_not_digits {t : List Char} {m : ℕ}
    (hm : parseMonthName t = some m) (hd : t.all Char.isDigit = true) : False := by
  have hmem : t.map Char.toLower ∈ monthNames := monthLookup_mem hm
  obtain ⟨hne, hhead⟩ := monthName_facts _ hmem
  match t with
  | [] => exact absurd hmem (by decide)
  | c :: t' =>
    have hcd : c.isDigit = true := by
      have := List.all_eq_true.mp hd c (by simp)
      simpa using this
    have : (List.map Char.toLower (c :: t')).headI = Char.toLower c := by simp
    rw [this, toLower_of_isDigit hcd] at hhead
    rw [hhead] at hcd
    exact absurd hcd (by simp)

theorem splitWsGo_no_ws {s : List Char} (acc : List Char)
    (h : ∀ ch ∈ s, isWs ch = false) :
    splitWsGo acc s = if acc = [] ∧ s = [] then [] else [acc.reverse ++ s] := by
  induction s generalizing acc with
  | nil =>
    by_cases ha : acc = [] <;> simp [splitWsGo, ha]
  | cons c cs ih =>
    have hc : isWs c = false := h c (by simp)
    rw [splitWsGo, hc]
    simp only [Bool.false_eq_true, if_false]
    rw [ih (c :: acc) (fun ch hch => h ch (by simp [hch]))]
    by_cases hcs : cs = [] <;> simp [hcs]

theorem splitWs_no_ws {s : List Char} (h : ∀ ch ∈ s, isWs ch = false) :
    splitWs s = if s = [] then [] else [s] := by
  rw [splitWs, splitWsGo_no_ws [] h]
  by_cases hs : s = [] <;> simp [hs]

theorem parseISO_no_ws {s : List Char} {ymd : ℕ × ℕ × ℕ}
    (h : parseISO s = some ymd) : ∀ ch ∈ s, isWs ch = false := by
  intro ch hch
  rw [parseISO] at h
  split at h
  all_goals try exact Option.noConfusion h
  rename_i ys ms ds heq
  split at h
  all_goals try exact Option.noConfusion h
  rename_i y m d hy hmm2 hd
  have hy2 := parseNatLen_eq_some hy
  have hm2 := parseNatLen_eq_some hmm2
  have hd2 := parseNatLen_eq_some hd
  have hjoin : joinWith ['-'] [ys, ms, ds] = s := by
    rw [← heq]
    exact splitSub_join (by simp)
  rw [← hjoin] at hch
  rcases mem_joinWith hch with ⟨p2, hp2, hcp⟩ | hsep
  · have hdig : ch.isDigit = true := by
      simp only [List.mem_cons, List.not_mem_nil, or_false] at hp2
      rcases hp2 with h1 | h1 | h1 <;> subst h1
      · exact List.all_eq_true.mp hy2.2 ch hcp
      · exact List.all_eq_true.mp hm2.2 ch hcp
      · exact List.all_eq_true.mp hd2.2 ch hcp
    exact not_isWs_of_isDigit hdig
  · simp at hsep
    subst hsep
    decide

/-! ## `convert_dates`: per-column pandas semantics versus the per-value chain -/

theorem exists_ws_of_splitWs_three {s : List Char} {t1 t2 t3 : List Char}
    (h : splitWs s = [t1, t2, t3]) : ∃ ch ∈ s, isWs ch = true := by
  by_contra hall
  push_neg at hall
  have hno : ∀ ch ∈ s, isWs ch = false := by
    intro ch hch
    simpa using hall ch hch
  rw [splitWs_no_ws hno] at h
  by_cases hs : s = [] <;> simp [hs] at h

theorem parseISO_none_of_ws {s : List Char} (h : ∃ ch ∈ s, isWs ch = true) :
    parseISO s = none := by
  cases hi : parseISO s with
  | none => rfl
  | some ymd =>
    obtain ⟨ch, hch, hws⟩ := h
    rw [parseISO_no_ws hi ch hch] at hws
    exact absurd hws (by simp)

theorem parseYBD_inv {s : List Char} {ymd : ℕ × ℕ × ℕ} (h : parseYBD s = some ymd) :
    ∃ t1 t2 t3, splitWs s = [t1, t2, t3] ∧
      (∃ y, parseNatLen 4 t1 = some y) ∧ (∃ m, parseMonthName t2 = some m) := by
  rw [parseYBD] at h
  split at h
  all_goals try exact Option.noConfusion h
  rename_i t1 t2 t3 heq
  split at h
  all_goals try exact Option.noConfusion h
  rename_i y m d hy hm hd
  exact ⟨t1, t2, t3, heq, ⟨y, hy⟩, ⟨m, hm⟩⟩

theorem parseBYD_inv {s : List Char} {ymd : ℕ × ℕ × ℕ} (h : parseBYD s = some ymd) :
    ∃ t1 t2 t3, splitWs s = [t1, t2, t3] ∧
      (∃ m, parseMonthName t1 = some m) ∧ (∃ y, parseNatLen 4 t2 = some y) := by
  rw [parseBYD] at h
  split at h
  all_goals try exact Option.noConfusion h
  rename_i t1 t2 t3 heq
  split at h
  all_goals try exact Option.noConfusion h
  rename_i m y d hm hy hd
  exact ⟨t1, t2, t3, heq, ⟨m, hm⟩, ⟨y, hy⟩⟩

theorem parseISO_none_of_parseYBD {s : List Char} {ymd : ℕ × ℕ × ℕ}
    (h : parseYBD s = some ymd) : parseISO s = none := by
  obtain ⟨t1, t2, t3, heq, _, _⟩ := parseYBD_inv h
  exact parseISO_none_of_ws (exists_ws_of_splitWs_three heq)

theorem parseISO_none_of_parseBYD {s : List Char} {ymd : ℕ × ℕ × ℕ}
    (h : parseBYD s = some ymd) : parseISO s = none := by
  obtain ⟨t1, t2, t3, heq, _, _⟩ := parseBYD_inv h
  exact parseISO_none_of_ws (exists_ws_of_splitWs_three heq)

theorem parseYBD_none_of_parseBYD {s : List Char} {ymd : ℕ × ℕ × ℕ}
    (h : parseBYD s = some ymd) : parseYBD s = none := by
  obtain ⟨t1, t2, t3, heq, ⟨m, hm⟩, _⟩ := parseBYD_inv h
  cases hy : parseYBD s with
  | none => rfl
  | some ymd2 =>
    obtain ⟨u1, u2, u3, heq2, ⟨y2, hy2⟩, _⟩ := parseYBD_inv hy
    rw [heq] at heq2
    obtain ⟨e1, e2, e3⟩ : u1 = t1 ∧ u2 = t2 ∧ u3 = t3 := by
      simp at heq2
      exact ⟨heq2.1.symm, heq2.2.1.symm, heq2.2.2.symm⟩
    subst e1
    exact (parseMonthName_not_digits hm (parseNatLen_eq_some hy2).2).elim

/-- The specification's per-value chain coincides with the final coercion
cell transform, because the permissive fallback subsumes and agrees with
the three fixed formats. -/
theorem specDateCell_eq_coerce (v : Cell) : specDateCell v = coerceDateCell v := by
  cases v with
  | str s =>
    rw [specDateCell, coerceDateCell, parsePermissive]
    cases parseISO s <;> cases parseYBD s <;> cases parseBYD s <;>
      simp [Option.orElse]
  | null => rfl
  | int n => rfl
  | float q => rfl
  | cat s => rfl
  | date y m d => rfl

/-- A fixed-format conversion never changes what the final coercion yields
on that cell. -/
theorem coerce_cellFmtParse {p : List Char → Option (ℕ × ℕ × ℕ)}
    (hp : ∀ s ymd, p s = some ymd →
      parsePermissive s = some ymd)
    {v w : Cell} (h : cellFmtParse p v = some w) :
    coerceDateCell w = coerceDateCell v := by
  cases v with
  | null => simp only [cellFmtParse] at h; cases h; rfl
  | date y m d => simp only [cellFmtParse] at h; cases h; rfl
  | str s =>
    simp only [cellFmtParse] at h
    cases hp2 : p s with
    | none => simp [hp2] at h
    | some ymd =>
      simp only [hp2, Option.map_some'] at h
      cases h
      simp [coerceDateCell, hp _ _ hp2]
  | int n => simp [cellFmtParse] at h
  | float q => simp [cellFmtParse] at h
  | cat s2 => simp [cellFmtParse] at h

theorem permissive_of_parseISO {s : List Char} {ymd : ℕ × ℕ × ℕ}
    (h : parseISO s = some ymd) : parsePermissive s = some ymd := by
  rw [parsePermissive, h]
  rfl

theorem permissive_of_parseYBD {s : List Char} {ymd : ℕ × ℕ × ℕ}
    (h : parseYBD s = some ymd) : parsePermissive s = some ymd := by
  rw [parsePermissive, parseISO_none_of_parseYBD h, h]
  rfl

theorem permissive_of_parseBYD {s : List Char} {ymd : ℕ × ℕ × ℕ}
    (h : parseBYD s = some ymd) : parsePermissive s = some ymd := by
  rw [parsePermissive, parseISO_none_of_parseBYD h, parseYBD_none_of_parseBYD h, h]
  rfl

theorem tryFormatCol_map_coerce {p : List Char → Option (ℕ × ℕ × ℕ)}
    (hp : ∀ s ymd, p s = some ymd → parsePermissive s = some ymd)
    (cells : List Cell) :
    (tryFormatCol p cells).map coerceDateCell = cells.map coerceDateCell := by
  rw [tryFormatCol]
  cases homap : omap (cellFmtParse p) cells with
  | none => rfl
  | some l =>
    have hf := omap_eq_some_iff.mp homap
    clear homap
    induction hf with
    | nil => rfl
    | cons hab htail ih =>
      simp only [List.map_cons, ih]
      rw [coerce_cellFmtParse hp hab]

theorem length_tryFormatCol (p : List Char → Option (ℕ × ℕ × ℕ)) (cells : List Cell) :
    (tryFormatCol p cells).length = cells.length := by
  rw [tryFormatCol]
  cases h : omap (cellFmtParse p) cells with
  | none => rfl
  | some l => exact omap_length h

theorem length_convertDatesCol (cells : List Cell) :
    (convertDatesCol cells).length = cells.length := by
  rw [convertDatesCol, List.length_map, length_tryFormatCol, length_tryFormatCol,
    length_tryFormatCol]

theorem hasCol_setColCells {df : Df} {c' : String} (h : hasCol df c' = true)
    (c : String) (cells : List Cell) (hlen : cells.length = df.length) :
    hasCol (setColCells df c cells) c' = true := by
  induction df generalizing cells with
  | nil => simp [setColCells, hasCol]
  | cons r df ih =>
    cases cells with
    | nil => simp at hlen
    | cons v cs =>
      simp only [hasCol, List.all_cons, Bool.and_eq_true] at h
      simp only [setColCells, List.zipWith_cons_cons, hasCol, List.all_cons,
        Bool.and_eq_true]
      refine ⟨?_, ?_⟩
      · by_cases hc : c' = c
        · subst hc; simp [getCell_setCell_self]
        · rw [getCell_setCell_ne _ _ hc]; exact h.1
      · exact ih h.2 cs (by simpa using hlen)

theorem convertDates_total (cols : List String) :
    ∀ df : Df, (∀ c ∈ cols, hasCol df c = true) →
      ∃ df2, convertDates df cols = Except.ok df2 := by
  induction cols with
  | nil => exact fun df _ => ⟨df, rfl⟩
  | cons c cols ih =>
    intro df h
    have hc : hasCol df c = true := h c (by simp)
    have hstep : convertDates df (c :: cols) =
        convertDates (setColCells df c (convertDatesCol (getColCells df c))) cols := by
      rw [convertDates, List.foldl_cons]
      rw [show (Except.ok df : Except PyErr Df).bind
          (fun d => if hasCol d c then
            Except.ok (setColCells d c (convertDatesCol (getColCells d c)))
          else Except.error PyErr.keyError) =
          Except.ok (setColCells df c (convertDatesCol (getColCells df c))) by
        simp [Except.bind, hc]]
      rfl
    rw [hstep]
    refine ih _ (fun c2 hc2 => ?_)
    refine hasCol_setColCells (h c2 (by simp [hc2])) c _ ?_
    rw [length_convertDatesCol]
    simp [getColCells]

/-- C3: `convert_dates` behaves, value by value, as the chain "three fixed
formats in strict priority order, then the permissive fallback, else a
missing date": the per-column pandas semantics equals the per-value chain
on every column; the stated examples parse (or null) as claimed; and the
pass never raises when the named columns exist. -/
theorem convert_dates_per_value_chain :
    (∀ cells : List Cell, convertDatesCol cells = cells.map specDateCell) ∧
    convertDatesCol [cstr "2020-01-15"] = [Cell.date 2020 1 15] ∧
    convertDatesCol [cstr "2020 January 15"] = [Cell.date 2020 1 15] ∧
    convertDatesCol [cstr "not-a-date"] = [Cell.null] ∧
    (∀ (df : Df) (cols : List String), (∀ c ∈ cols, hasCol df c = true) →
      ∃ df2, convertDates df cols = Except.ok df2) := by
  refine ⟨fun cells => ?_, by decide, by decide, by decide,
    fun df cols h => convertDates_total cols df h⟩
  rw [convertDatesCol,
    tryFormatCol_map_coerce (fun s ymd h => permissive_of_parseBYD h),
    tryFormatCol_map_coerce (fun s ymd h => permissive_of_parseYBD h),
    tryFormatCol_map_coerce (fun s ymd h => permissive_of_parseISO h),
    show specDateCell = coerceDateCell from funext specDateCell_eq_coerce]

/-- Witness for C3's hypotheses at a concrete one-column frame. -/
theorem convert_dates_per_value_chain_witness :
    ∃ df2, convertDates [[("join_date", cstr "2020-01-15")]] ["join_date"] =
      Except.ok df2 :=
  convert_dates_per_value_chain.2.2.2.2 [[("join_date", cstr "2020-01-15")]]
    ["join_date"] (by decide)

/-! ## C2: the weight-normalizer classification -/

/-- C2: `convert_product_weights` classifies by the exact first-match-wins
precedence multipack / trailing period / `kg` / `g` / `ml` / `oz` / pass
through, returning the values the claim states, with the claimed concrete
examples. -/
theorem convert_weights_classification :
    (∀ (s f0 f1 : List Char) (rest : List (List Char)) (q0 q1 : ℚ),
      containsSub ['x'] s = true →
      splitSub [' ', 'x', ' '] (replaceSub ['g'] [] s) = f0 :: f1 :: rest →
      pyFloat f0 = some q0 → pyFloat f1 = some q1 →
      convertProductWeights s = Except.ok (Sum.inl (q0 * q1 / 1000))) ∧
    (∀ (s : List Char) (q : ℚ),
      containsSub ['x'] s = false → endsWith ['.'] s = true →
      pyFloat (replaceSub ['g', ' ', '.'] [] s) = some q →
      convertProductWeights s = Except.ok (Sum.inl (q / 1000))) ∧
    (∀ (s : List Char) (q : ℚ),
      containsSub ['x'] s = false → endsWith ['.'] s = false →
      endsWith ['k', 'g'] s = true →
      pyFloat (replaceSub ['k', 'g'] [] s) = some q →
      convertProductWeights s = Except.ok (Sum.inl q)) ∧
    (∀ (s : List Char) (q : ℚ),
      containsSub ['x'] s = false → endsWith ['.'] s = false →
      endsWith ['k', 'g'] s = false → endsWith ['g'] s = true →
      pyFloat (replaceSub ['g'] [] s) = some q →
      convertProductWeights s = Except.ok (Sum.inl (q / 1000))) ∧
    (∀ (s : List Char) (q : ℚ),
      containsSub ['x'] s = false → endsWith ['.'] s = false →
      endsWith ['k', 'g'] s = false → endsWith ['g'] s = false →
      endsWith ['m', 'l'] s = true →
      pyFloat (replaceSub ['m', 'l'] [] s) = some q →
      convertProductWeights s = Except.ok (Sum.inl (q / 1000))) ∧
    (∀ (s : List Char) (q : ℚ),
      containsSub ['x'] s = false → endsWith ['.'] s = false →
      endsWith ['k', 'g'] s = false → endsWith ['g'] s = false →
      endsWith ['m', 'l'] s = false → endsWith ['o', 'z'] s = true →
      pyFloat (replaceSub ['o', 'z'] [] s) = some q →
      convertProductWeights s = Except.ok (Sum.inl (q * (283495 / 10000000)))) ∧
    (∀ s : List Char,
      containsSub ['x'] s = false → endsWith ['.'] s = false →
      endsWith ['k', 'g'] s = false → endsWith ['g'] s = false →
      endsWith ['m', 'l'] s = false → endsWith ['o', 'z'] s = false →
      convertProductWeights s = Except.ok (Sum.inr s)) ∧
    convertProductWeights "100g".data = Except.ok (Sum.inl (1 / 10)) ∧
    convertProductWeights "2 x 200g".data = Except.ok (Sum.inl (2 / 5)) ∧
    convertProductWeights "1kg".data = Except.ok (Sum.inl 1) ∧
    convertProductWeights "3oz".data = Except.ok (Sum.inl (850485 / 10000000)) ∧
    convertProductWeights "200ml".data = Except.ok (Sum.inl (1 / 5)) ∧
    convertProductWeights "garbage".data = Except.ok (Sum.inr "garbage".data) := by
  refine ⟨?_, ?_, ?_, ?_, ?_, ?_, ?_, ?_, ?_, ?_, ?_, ?_, ?_⟩
  · intro s f0 f1 rest q0 q1 hx hsplit h0 h1
    rw [convertProductWeights, if_pos hx]
    dsimp only
    rw [hsplit]
    dsimp only
    rw [h0]
    dsimp only
    rw [h1]
  · intro s q hx hdot hq
    rw [convertProductWeights, if_neg (by simp [hx]), if_pos hdot]
    dsimp only
    rw [hq]
  · intro s q hx hdot hkg hq
    rw [convertProductWeights, if_neg (by simp [hx]), if_neg (by simp [hdot]),
      if_pos hkg]
    dsimp only
    rw [hq]
  · intro s q hx hdot hkg hg hq
    rw [convertProductWeights, if_neg (by simp [hx]), if_neg (by simp [hdot]),
      if_neg (by simp [hkg]), if_pos hg]
    dsimp only
    rw [hq]
  · intro s q hx hdot hkg hg hml hq
    rw [convertProductWeights, if_neg (by simp [hx]), if_neg (by simp [hdot]),
      if_neg (by simp [hkg]), if_neg (by simp [hg]), if_pos hml]
    dsimp only
    rw [hq]
  · intro s q hx hdot hkg hg hml hoz hq
    rw [convertProductWeights, if_neg (by simp [hx]), if_neg (by simp [hdot]),
      if_neg (by simp [hkg]), if_neg (by simp [hg]), if_neg (by simp [hml]),
      if_pos hoz]
    dsimp only
    rw [hq]
  · intro s hx hdot hkg hg hml hoz
    rw [convertProductWeights, if_neg (by simp [hx]), if_neg (by simp [hdot]),
      if_neg (by simp [hkg]), if_neg (by simp [hg]), if_neg (by simp [hml]),
      if_neg (by simp [hoz])]
  · simp +decide [convertProductWeights, containsSub, endsWith, replaceSub, replaceSubGo,
      pyFloat, pyFloatBody, digitsToNat, isWs]
    norm_num
  · simp +decide [convertProductWeights, containsSub, endsWith, replaceSub, replaceSubGo,
      splitSub, splitSubGo, pyFloat, pyFloatBody, digitsToNat, isWs]
    norm_num
  · simp +decide [convertProductWeights, containsSub, endsWith, replaceSub, replaceSubGo,
      pyFloat, pyFloatBody, digitsToNat, isWs]
  · simp +decide [convertProductWeights, containsSub, endsWith, replaceSub, replaceSubGo,
      pyFloat, pyFloatBody, digitsToNat, isWs]
    norm_num
  · simp +decide [convertProductWeights, containsSub, endsWith, replaceSub, replaceSubGo,
      pyFloat, pyFloatBody, digitsToNat, isWs]
    norm_num
  · simp +decide [convertProductWeights, containsSub, endsWith]

/-- Witness for C2's hypotheses: the multipack clause applied at
`"2 x 200g"`. -/
theorem convert_weights_classification_witness :
    convertProductWeights "2 x 200g".data = Except.ok (Sum.inl ((2 : ℚ) * 200 / 1000)) :=
  convert_weights_classification.1 "2 x 200g".data "2".data "200".data [] 2 200
    (by decide) (by decide)
    (by simp +decide [pyFloat, pyFloatBody, digitsToNat, isWs])
    (by simp +decide [pyFloat, pyFloatBody, digitsToNat, isWs])

/-! ## Structure lemmas for passes built from `mapColAt` and `filterMap` -/

theorem mem_mapColAt {c : String} {f : Cell → Cell} {df : Df} {r2 : Row}
    (h : r2 ∈ mapColAt c f df) :
    ∃ r ∈ df, (getCell r c = none ∧ r2 = r) ∨
      (∃ v, getCell r c = some v ∧ r2 = setCell r c (f v)) := by
  rw [mapColAt] at h
  obtain ⟨r, hr, heq⟩ := List.mem_map.mp h
  refine ⟨r, hr, ?_⟩
  cases hv : getCell r c with
  | none => rw [hv] at heq; exact Or.inl ⟨rfl, heq.symm⟩
  | some v => rw [hv] at heq; exact Or.inr ⟨v, rfl, heq.symm⟩

theorem hasCol_mapColAt {c' : String} {df : Df} (c : String) (f : Cell → Cell)
    (h : hasCol df c' = true) : hasCol (mapColAt c f df) c' = true := by
  rw [hasCol, List.all_eq_true]
  intro r2 hr2
  obtain ⟨r, hr, hcase⟩ := mem_mapColAt hr2
  have hsome : (getCell r c').isSome := by
    have := List.all_eq_true.mp h r hr
    simpa using this
  rcases hcase with ⟨_, rfl⟩ | ⟨v, hv, rfl⟩
  · simpa using hsome
  · by_cases hcc : c' = c
    · subst hcc; simp [getCell_setCell_self]
    · simp [getCell_setCell_ne _ _ hcc]
      simpa using hsome

theorem mapColAt_id {c : String} {f : Cell → Cell} {df : Df}
    (h : ∀ r ∈ df, ∀ v, getCell r c = some v → f v = v) :
    mapColAt c f df = df := by
  induction df with
  | nil => rfl
  | cons r df ih =>
    have hr : (match getCell r c with
               | some v => setCell r c (f v)
               | none => r) = r := by
      cases hv : getCell r c with
      | none => rfl
      | some v =>
        dsimp only
        rw [h r (by simp) v hv]
        exact setCell_self hv
    have htail := ih (fun r2 hr2 v hv => h r2 (by simp [hr2]) v hv)
    rw [mapColAt, List.map_cons, hr]
    congr 1

theorem filterMap_eq_self {f : Row → Option Row} {l : List Row}
    (h : ∀ a ∈ l, f a = some a) : List.filterMap f l = l := by
  induction l with
  | nil => rfl
  | cons a l ih =>
    rw [List.filterMap_cons, h a (by simp)]
    rw [ih (fun a2 ha2 => h a2 (by simp [ha2]))]

/-! ## `clean_country_data`: characterization, domain guarantee, idempotence -/

theorem countryRow_some_inv {r r2 : Row} (h : countryRow r = some r2) :
    ∃ s, r2 = setCell r "country_code" (Cell.cat s) ∧
      (s = "GB".data ∨ s = "DE".data ∨ s = "US".data) := by
  rw [countryRow] at h
  cases hv : getCell r "country_code" with
  | none => rw [hv] at h; exact Option.noConfusion h
  | some v =>
    rw [hv] at h
    dsimp only at h
    by_cases hg : toCatCell v = Cell.cat "GGB".data
    · rw [if_pos hg] at h
      rw [if_pos (Or.inl rfl)] at h
      cases h
      exact ⟨_, rfl, Or.inl rfl⟩
    · rw [if_neg hg] at h
      by_cases hcond : toCatCell v = Cell.cat "GB".data ∨
          toCatCell v = Cell.cat "DE".data ∨ toCatCell v = Cell.cat "US".data
      · rw [if_pos hcond] at h
        cases h
        rcases hcond with h1 | h1 | h1 <;> rw [h1]
        · exact ⟨_, rfl, Or.inl rfl⟩
        · exact ⟨_, rfl, Or.inr (Or.inl rfl)⟩
        · exact ⟨_, rfl, Or.inr (Or.inr rfl)⟩
      · rw [if_neg hcond] at h
        exact Option.noConfusion h

theorem countryRow_GGB {r : Row} (h : getCell r "country_code" = some (cstr "GGB")) :
    countryRow r = some (setCell r "country_code" (Cell.cat "GB".data)) := by
  rw [countryRow, h]
  dsimp only [cstr, toCatCell]
  rw [if_pos rfl, if_pos (Or.inl rfl)]

theorem countryRow_stable {r : Row} {s : List Char}
    (h : getCell r "country_code" = some (Cell.cat s))
    (hs : s = "GB".data ∨ s = "DE".data ∨ s = "US".data) :
    countryRow r = some r := by
  rw [countryRow, h]
  dsimp only [toCatCell]
  have hne : Cell.cat s ≠ Cell.cat "GGB".data := by
    rcases hs with h1 | h1 | h1 <;> subst h1 <;> decide
  rw [if_neg hne, if_pos (by rcases hs with h1 | h1 | h1 <;> subst h1 <;> simp),
    setCell_self h]

theorem cleanCountryData_ok_inv {df df2 : Df} (h : cleanCountryData df = Except.ok df2) :
    hasCol df "country_code" = true ∧ df2 = df.filterMap countryRow := by
  rw [cleanCountryData] at h
  by_cases hc : hasCol df "country_code" = true
  · rw [if_pos hc] at h
    refine ⟨hc, ?_⟩
    cases h
    rfl
  · rw [if_neg hc] at h
    exact Except.noConfusion h

/-- C7: after `clean_country_data` every surviving `country_code` is one of
`GB`, `DE`, `US`; a row carrying the `GGB` typo survives with code `GB`;
and no column other than `country_code` is modified. -/
theorem clean_country_domain :
    ∀ df df2 : Df, cleanCountryData df = Except.ok df2 →
      (∀ r2 ∈ df2, ∃ s, getCell r2 "country_code" = some (Cell.cat s) ∧
        (s = "GB".data ∨ s = "DE".data ∨ s = "US".data)) ∧
      (∀ r ∈ df, getCell r "country_code" = some (cstr "GGB") →
        setCell r "country_code" (Cell.cat "GB".data) ∈ df2) ∧
      (∀ r2 ∈ df2, ∃ r ∈ df,
        ∀ c, c ≠ "country_code" → getCell r2 c = getCell r c) := by
  intro df df2 h
  obtain ⟨hc, rfl⟩ := cleanCountryData_ok_inv h
  refine ⟨?_, ?_, ?_⟩
  · intro r2 hr2
    obtain ⟨r, hr, hrow⟩ := List.mem_filterMap.mp hr2
    obtain ⟨s, rfl, hs⟩ := countryRow_some_inv hrow
    exact ⟨s, getCell_setCell_self _ _ _, hs⟩
  · intro r hr hggb
    exact List.mem_filterMap.mpr ⟨r, hr, countryRow_GGB hggb⟩
  · intro r2 hr2
    obtain ⟨r, hr, hrow⟩ := List.mem_filterMap.mp hr2
    obtain ⟨s, rfl, hs⟩ := countryRow_some_inv hrow
    exact ⟨r, hr, fun c hcne => getCell_setCell_ne _ _ hcne⟩

/-- Witness for C7: a `GGB` row with one extra column survives as `GB`. -/
theorem clean_country_domain_witness :
    setCell [("country_code", cstr "GGB"), ("email_address", cstr "e")]
        "country_code" (Cell.cat "GB".data) ∈
      ([[("country_code", Cell.cat "GB".data), ("email_address", cstr "e")]] : Df) :=
  (clean_country_domain
      [[("country_code", cstr "GGB"), ("email_address", cstr "e")]]
      [[("country_code", Cell.cat "GB".data), ("email_address", cstr "e")]]
      (by decide)).2.1
    [("country_code", cstr "GGB"), ("email_address", cstr "e")] (by decide) (by decide)

theorem hasCol_of_country_ok {df df2 : Df} (h : cleanCountryData df = Except.ok df2) :
    hasCol df2 "country_code" = true := by
  rw [hasCol, List.all_eq_true]
  intro r2 hr2
  obtain ⟨s, hget, _⟩ := (clean_country_domain df df2 h).1 r2 hr2
  simp [hget]

theorem cleanCountryData_idem {df df2 : Df} (h : cleanCountryData df = Except.ok df2) :
    cleanCountryData df2 = Except.ok df2 := by
  rw [cleanCountryData, if_pos (hasCol_of_country_ok h)]
  congr 1
  refine filterMap_eq_self (fun r2 hr2 => ?_)
  obtain ⟨s, hget, hs⟩ := (clean_country_domain df df2 h).1 r2 hr2
  exact countryRow_stable hget hs

/-! ## Type coercion: cell idempotence and per-column isolation -/

theorem tryConvertInt_some_inv {bits : ℕ} {v w : Cell}
    (h : tryConvertCell.tryConvertInt bits v = some w) :
    ∃ n : ℤ, w = Cell.int n ∧ intFits bits n = true := by
  cases v with
  | int n =>
    rw [tryConvertCell.tryConvertInt] at h
    by_cases hf : intFits bits n = true
    · rw [if_pos hf] at h; cases h; exact ⟨n, rfl, hf⟩
    · rw [if_neg hf] at h; exact Option.noConfusion h
  | float q =>
    rw [tryConvertCell.tryConvertInt] at h
    by_cases hf : intFits bits (truncQ q) = true
    · rw [if_pos hf] at h; cases h; exact ⟨truncQ q, rfl, hf⟩
    · rw [if_neg hf] at h; exact Option.noConfusion h
  | str s =>
    rw [tryConvertCell.tryConvertInt] at h
    cases hp : pyInt s with
    | none => rw [hp] at h; exact Option.noConfusion h
    | some n =>
      rw [hp] at h
      dsimp only [Option.bind] at h
      by_cases hf : intFits bits n = true
      · rw [if_pos hf] at h; cases h; exact ⟨n, rfl, hf⟩
      · rw [if_neg hf] at h; exact Option.noConfusion h
  | cat s =>
    rw [tryConvertCell.tryConvertInt] at h
    cases hp : pyInt s with
    | none => rw [hp] at h; exact Option.noConfusion h
    | some n =>
      rw [hp] at h
      dsimp only [Option.bind] at h
      by_cases hf : intFits bits n = true
      · rw [if_pos hf] at h; cases h; exact ⟨n, rfl, hf⟩
      · rw [if_neg hf] at h; exact Option.noConfusion h
  | null => simp [tryConvertCell.tryConvertInt] at h
  | date y m d => simp [tryConvertCell.tryConvertInt] at h

theorem tryConvertInt_idem {bits : ℕ} {v w : Cell}
    (h : tryConvertCell.tryConvertInt bits v = some w) :
    tryConvertCell.tryConvertInt bits w = some w := by
  obtain ⟨n, rfl, hf⟩ := tryConvertInt_some_inv h
  rw [tryConvertCell.tryConvertInt, if_pos hf]

theorem tryConvertCell_idem {t : Dtype} {v w : Cell}
    (h : tryConvertCell t v = some w) : tryConvertCell t w = some w := by
  cases t with
  | string =>
    cases v <;> simp only [tryConvertCell] at h <;> cases h <;> rfl
  | category =>
    cases v <;> simp only [tryConvertCell] at h <;> cases h <;> rfl
  | float64 =>
    cases v with
    | null => cases h; rfl
    | float q => cases h; rfl
    | int n => cases h; rfl
    | date y m d => simp [tryConvertCell] at h
    | str s =>
      rw [tryConvertCell] at h
      by_cases hn : isNanStr s = true
      · rw [if_pos hn] at h; cases h; rfl
      · rw [if_neg hn] at h
        cases hp : pyFloat s with
        | none => rw [hp] at h; exact Option.noConfusion h
        | some q => rw [hp] at h; simp only [Option.map_some'] at h; cases h; rfl
    | cat s =>
      rw [tryConvertCell] at h
      by_cases hn : isNanStr s = true
      · rw [if_pos hn] at h; cases h; rfl
      · rw [if_neg hn] at h
        cases hp : pyFloat s with
        | none => rw [hp] at h; exact Option.noConfusion h
        | some q => rw [hp] at h; simp only [Option.map_some'] at h; cases h; rfl
  | int64 => exact tryConvertInt_idem h
  | int16 => exact tryConvertInt_idem h
  | int8 => exact tryConvertInt_idem h

theorem setCell_comm {r : Row} {c c' : String} {v w : Cell}
    (hne : c ≠ c') (hc : (getCell r c).isSome = true) :
    setCell (setCell r c' w) c v = setCell (setCell r c v) c' w := by
  induction r with
  | nil => simp [getCell] at hc
  | cons p rest ih =>
    obtain ⟨k, u⟩ := p
    by_cases hkc : k = c
    · subst hkc
      simp [setCell, hne, Ne.symm hne]
    · by_cases hkc' : k = c'
      · subst hkc'
        simp [setCell, hkc, hne, Ne.symm hne]
      · have hc2 : (getCell rest c).isSome = true := by
          simpa [getCell, hkc] using hc
        simp [setCell, hkc, hkc', ih hc2]

theorem omap_eq_none_iff {f : α → Option β} {l : List α} :
    omap f l = none ↔ ∃ a ∈ l, f a = none := by
  induction l with
  | nil => simp [omap]
  | cons a l ih =>
    constructor
    · intro h
      rw [omap] at h
      cases hfa : f a with
      | none => exact ⟨a, by simp, hfa⟩
      | some b =>
        cases hl : omap f l with
        | none =>
          obtain ⟨x, hx, hfx⟩ := ih.mp hl
          exact ⟨x, by simp [hx], hfx⟩
        | some bs => rw [hfa, hl] at h; exact Option.noConfusion h
    · rintro ⟨x, hx, hfx⟩
      rcases List.mem_cons.mp hx with rfl | hx2
      · cases homap : omap f l <;> rw [omap, hfx, homap]
      · cases hfa : f a <;> rw [omap, ih.mpr ⟨x, hx2, hfx⟩, hfa]

theorem forall2_mem_left {R : α → β → Prop} {l : List α} {l2 : List β}
    (h : List.Forall₂ R l l2) {a : α} (ha : a ∈ l) : ∃ b ∈ l2, R a b := by
  induction h with
  | nil => simp at ha
  | cons hab htail ih =>
    rcases List.mem_cons.mp ha with rfl | ha2
    · exact ⟨_, by simp, hab⟩
    · obtain ⟨b, hb, hr⟩ := ih ha2
      exact ⟨b, by simp [hb], hr⟩

theorem forall2_mem_right {R : α → β → Prop} {l : List α} {l2 : List β}
    (h : List.Forall₂ R l l2) {b : β} (hb : b ∈ l2) : ∃ a ∈ l, R a b := by
  induction h with
  | nil => simp at hb
  | cons hab htail ih =>
    rcases List.mem_cons.mp hb with rfl | hb2
    · exact ⟨_, by simp, hab⟩
    · obtain ⟨a, ha, hr⟩ := ih hb2
      exact ⟨a, by simp [ha], hr⟩

theorem convRow_some_inv {c : String} {t : Dtype} {r r2 : Row}
    (h : convRow c t r = some r2) :
    ∃ v w, getCell r c = some v ∧ tryConvertCell t v = some w ∧
      r2 = setCell r c w := by
  rw [convRow] at h
  cases hv : getCell r c with
  | none => rw [hv] at h; exact Option.noConfusion h
  | some v =>
    rw [hv] at h
    dsimp only [Option.bind] at h
    cases hw : tryConvertCell t v with
    | none => rw [hw] at h; exact Option.noConfusion h
    | some w =>
      rw [hw] at h
      simp only [Option.map_some'] at h
      cases h
      exact ⟨v, w, rfl, hw, rfl⟩

theorem convRow_idem {c : String} {t : Dtype} {r r2 : Row}
    (h : convRow c t r = some r2) : convRow c t r2 = some r2 := by
  obtain ⟨v, w, hv, hw, rfl⟩ := convRow_some_inv h
  rw [convRow, getCell_setCell_self]
  dsimp only [Option.bind]
  rw [tryConvertCell_idem hw]
  simp only [Option.map_some']
  rw [setCell_setCell_same]

theorem convRow_self_inv {c : String} {t : Dtype} {r : Row}
    (h : convRow c t r = some r) :
    ∃ v, getCell r c = some v ∧ tryConvertCell t v = some v ∧ setCell r c v = r := by
  obtain ⟨v, w, hv, hw, heq⟩ := convRow_some_inv h
  have hw2 : getCell r c = some w := by
    conv_lhs => rw [heq]
    exact getCell_setCell_self _ _ _
  rw [hv] at hw2
  cases hw2
  exact ⟨v, hv, hw, heq.symm⟩

theorem convRow_setCell_ne {c c' : String} {t : Dtype} {r : Row} {w0 : Cell}
    (hne : c' ≠ c) (h : convRow c t r = some r) :
    convRow c t (setCell r c' w0) = some (setCell r c' w0) := by
  obtain ⟨v, hv, hvv, hself⟩ := convRow_self_inv h
  have hget : getCell (setCell r c' w0) c = some v := by
    rw [getCell_setCell_ne r w0 (Ne.symm hne)]
    exact hv
  rw [convRow, hget]
  dsimp only [Option.bind]
  rw [hvv]
  simp only [Option.map_some']
  rw [setCell_comm (Ne.symm hne) (by simp [hv]), hself]

theorem convRow_none_setCell {c c' : String} {t : Dtype} {r : Row} {w0 : Cell}
    (hne : c' ≠ c) (h : convRow c t r = none) :
    convRow c t (setCell r c' w0) = none := by
  rw [convRow] at h ⊢
  rw [getCell_setCell_ne r w0 (Ne.symm hne)]
  cases hv : getCell r c with
  | none => rfl
  | some v =>
    rw [hv] at h
    dsimp only [Option.bind] at h ⊢
    cases hw : tryConvertCell t v with
    | none => rfl
    | some w => rw [hw] at h; simp at h

theorem astypeStep_eq_of_forall {c : String} {t : Dtype} {df : Df}
    (hP : ∀ r ∈ df, convRow c t r = some r) : astypeStep c t df = df := by
  rw [astypeStep, omap_eq_some_of_forall (g := id) (fun a ha => hP a ha)]
  simp

theorem astypeStep_eq_of_fail {c : String} {t : Dtype} {df : Df}
    (hQ : ∃ r ∈ df, convRow c t r = none) : astypeStep c t df = df := by
  rw [astypeStep, omap_eq_none_iff.mpr hQ]

theorem astypeStep_post (c : String) (t : Dtype) (df : Df) :
    (∀ r2 ∈ astypeStep c t df, convRow c t r2 = some r2) ∨
    (∃ r2 ∈ astypeStep c t df, convRow c t r2 = none) := by
  rw [astypeStep]
  cases homap : omap (convRow c t) df with
  | some df2 =>
    left
    intro r2 hr2
    obtain ⟨r, hr, hrow⟩ := forall2_mem_right (omap_eq_some_iff.mp homap) hr2
    exact convRow_idem hrow
  | none =>
    right
    exact omap_eq_none_iff.mp homap

theorem astypeStep_pres_P {c c' : String} {t t' : Dtype} {df : Df} (hne : c ≠ c')
    (hP : ∀ r ∈ df, convRow c t r = some r) :
    ∀ r2 ∈ astypeStep c' t' df, convRow c t r2 = some r2 := by
  intro r2 hr2
  rw [astypeStep] at hr2
  cases homap : omap (convRow c' t') df with
  | none => rw [homap] at hr2; exact hP r2 hr2
  | some df2 =>
    rw [homap] at hr2
    obtain ⟨r, hr, hrow⟩ := forall2_mem_right (omap_eq_some_iff.mp homap) hr2
    obtain ⟨v, w, hv, hw, rfl⟩ := convRow_some_inv hrow
    exact convRow_setCell_ne (Ne.symm hne) (hP r hr)

theorem astypeStep_pres_Q {c c' : String} {t t' : Dtype} {df : Df} (hne : c ≠ c')
    (hQ : ∃ r ∈ df, convRow c t r = none) :
    ∃ r2 ∈ astypeStep c' t' df, convRow c t r2 = none := by
  obtain ⟨r, hr, hfail⟩ := hQ
  rw [astypeStep]
  cases homap : omap (convRow c' t') df with
  | none => exact ⟨r, hr, hfail⟩
  | some df2 =>
    obtain ⟨r2, hr2, hrow⟩ := forall2_mem_left (omap_eq_some_iff.mp homap) hr
    obtain ⟨v, w, hv, hw, rfl⟩ := convRow_some_inv hrow
    exact ⟨_, hr2, convRow_none_setCell (Ne.symm hne) hfail⟩

theorem cdt_cons (df : Df) (c : String) (t : Dtype) (m : List (String × Dtype)) :
    convertDataTypes df ((c, t) :: m) = convertDataTypes (astypeStep c t df) m := by
  rw [convertDataTypes, List.foldl_cons]
  rfl

theorem cdt_pres_P {c : String} {t : Dtype} {m : List (String × Dtype)}
    (hc : c ∉ m.map Prod.fst) :
    ∀ {df : Df}, (∀ r ∈ df, convRow c t r = some r) →
      ∀ r2 ∈ convertDataTypes df m, convRow c t r2 = some r2 := by
  induction m with
  | nil => intro df hP r2 hr2; exact hP r2 hr2
  | cons ct m ih =>
    intro df hP r2 hr2
    obtain ⟨c', t'⟩ := ct
    simp only [List.map_cons, List.mem_cons] at hc
    push_neg at hc
    rw [cdt_cons] at hr2
    exact ih hc.2 (astypeStep_pres_P hc.1 hP) r2 hr2

theorem cdt_pres_Q {c : String} {t : Dtype} {m : List (String × Dtype)}
    (hc : c ∉ m.map Prod.fst) :
    ∀ {df : Df}, (∃ r ∈ df, convRow c t r = none) →
      ∃ r2 ∈ convertDataTypes df m, convRow c t r2 = none := by
  induction m with
  | nil => intro df hQ; exact hQ
  | cons ct m ih =>
    intro df hQ
    obtain ⟨c', t'⟩ := ct
    simp only [List.map_cons, List.mem_cons] at hc
    push_neg at hc
    rw [cdt_cons]
    exact ih hc.2 (astypeStep_pres_Q hc.1 hQ)

theorem convertDataTypes_idem :
    ∀ m : List (String × Dtype), (m.map Prod.fst).Nodup →
      ∀ df : Df, convertDataTypes (convertDataTypes df m) m = convertDataTypes df m := by
  intro m
  induction m with
  | nil => intro _ df; rfl
  | cons ct m ih =>
    intro hnodup df
    obtain ⟨c, t⟩ := ct
    simp only [List.map_cons, List.nodup_cons] at hnodup
    obtain ⟨hcm, hnd⟩ := hnodup
    rw [cdt_cons, cdt_cons]
    have hstep : astypeStep c t (convertDataTypes (astypeStep c t df) m) =
        convertDataTypes (astypeStep c t df) m := by
      rcases astypeStep_post c t df with hP | hQ
      · exact astypeStep_eq_of_forall (cdt_pres_P hcm hP)
      · exact astypeStep_eq_of_fail (cdt_pres_Q hcm hQ)
    rw [hstep]
    exact ih hnd (astypeStep c t df)

theorem omap_col_of_rows {c : String} {t : Dtype} {df df2 : Df}
    (h : omap (convRow c t) df = some df2) :
    omap (tryConvertCell t) (getColCells df c) = some (getColCells df2 c) := by
  have hf := omap_eq_some_iff.mp h
  clear h
  induction hf with
  | nil => rfl
  | cons hab htail ih =>
    rename_i a b l l2
    obtain ⟨v, w, hv, hw, rfl⟩ := convRow_some_inv hab
    simp only [getColCells, List.map_cons] at ih ⊢
    rw [hv, getCell_setCell_self]
    show omap (tryConvertCell t) (v :: _) = _
    rw [omap]
    rw [hw]
    rw [show omap (tryConvertCell t) (List.map (fun r => (getCell r c).getD Cell.null) l)
        = some (List.map (fun r => (getCell r c).getD Cell.null) l2) from ih]
    rfl

theorem omap_col_fail {c : String} {t : Dtype} {df : Df}
    (hc : hasCol df c = true) (h : omap (convRow c t) df = none) :
    omap (tryConvertCell t) (getColCells df c) = none := by
  obtain ⟨r, hr, hfail⟩ := omap_eq_none_iff.mp h
  refine omap_eq_none_iff.mpr ⟨(getCell r c).getD Cell.null, ?_, ?_⟩
  · exact List.mem_map.mpr ⟨r, hr, rfl⟩
  · have hsome := List.all_eq_true.mp hc r hr
    cases hv : getCell r c with
    | none => rw [hv] at hsome; simp at hsome
    | some v =>
      rw [convRow, hv] at hfail
      dsimp only [Option.bind] at hfail
      cases hw : tryConvertCell t v with
      | some w => rw [hw] at hfail; simp at hfail
      | none => exact hw

theorem astypeStep_col_self {c : String} {t : Dtype} {df : Df}
    (hc : hasCol df c = true) :
    getColCells (astypeStep c t df) c =
      match omap (tryConvertCell t) (getColCells df c) with
      | some l => l
      | none => getColCells df c := by
  rw [astypeStep]
  cases homap : omap (convRow c t) df with
  | some df2 => rw [omap_col_of_rows homap]
  | none => rw [omap_col_fail hc homap]

theorem astypeStep_col_ne {c c' : String} {t : Dtype} (hne : c' ≠ c) (df : Df) :
    getColCells (astypeStep c t df) c' = getColCells df c' := by
  rw [astypeStep]
  cases homap : omap (convRow c t) df with
  | none => rfl
  | some df2 =>
    have hf := omap_eq_some_iff.mp homap
    clear homap
    induction hf with
    | nil => rfl
    | cons hab htail ih =>
      obtain ⟨v, w, hv, hw, rfl⟩ := convRow_some_inv hab
      simp only [getColCells, List.map_cons] at ih ⊢
      rw [getCell_setCell_ne _ _ hne]
      rw [show List.map (fun r => (getCell r c').getD Cell.null) _ =
          List.map (fun r => (getCell r c').getD Cell.null) _ from ih]

theorem astypeStep_hasCol (c : String) (t : Dtype) (c' : String) (df : Df) :
    hasCol (astypeStep c t df) c' = hasCol df c' := by
  rw [astypeStep]
  cases homap : omap (convRow c t) df with
  | none => rfl
  | some df2 =>
    have hf := omap_eq_some_iff.mp homap
    clear homap
    induction hf with
    | nil => rfl
    | cons hab htail ih =>
      rename_i a b l l2
      obtain ⟨v, w, hv, hw, rfl⟩ := convRow_some_inv hab
      have hhead : (getCell (setCell a c w) c').isSome = (getCell a c').isSome := by
        by_cases hcc : c' = c
        · subst hcc
          rw [getCell_setCell_self, hv]
          rfl
        · rw [getCell_setCell_ne _ _ hcc]
      simp only [hasCol, List.all_cons] at ih ⊢
      rw [hhead]
      rw [show (l2.all fun r => (getCell r c').isSome) =
          l.all fun r => (getCell r c').isSome from ih]

theorem cdt_col_ne {m : List (String × Dtype)} {c : String}
    (hc : c ∉ m.map Prod.fst) (df : Df) :
    getColCells (convertDataTypes df m) c = getColCells df c := by
  induction m generalizing df with
  | nil => rfl
  | cons ct m ih =>
    obtain ⟨c', t'⟩ := ct
    simp only [List.map_cons, List.mem_cons] at hc
    push_neg at hc
    rw [cdt_cons, ih hc.2, astypeStep_col_ne hc.1]

theorem cdt_hasCol (m : List (String × Dtype)) (df : Df) (c : String) :
    hasCol (convertDataTypes df m) c = hasCol df c := by
  induction m generalizing df with
  | nil => rfl
  | cons ct m ih =>
    obtain ⟨c', t'⟩ := ct
    rw [cdt_cons, ih, astypeStep_hasCol]

theorem cdt_append (df : Df) (m1 m2 : List (String × Dtype)) :
    convertDataTypes df (m1 ++ m2) = convertDataTypes (convertDataTypes df m1) m2 := by
  rw [convertDataTypes, List.foldl_append]
  rfl

theorem astypeStep_absent {c c'' : String} {t : Dtype} {df : Df}
    (h : ∀ r ∈ df, getCell r c = none) :
    ∀ r2 ∈ astypeStep c'' t df, getCell r2 c = none := by
  intro r2 hr2
  rw [astypeStep] at hr2
  cases homap : omap (convRow c'' t) df with
  | none => rw [homap] at hr2; exact h r2 hr2
  | some df2 =>
    rw [homap] at hr2
    obtain ⟨r, hr, hrow⟩ := forall2_mem_right (omap_eq_some_iff.mp homap) hr2
    obtain ⟨v, w, hv, hw, rfl⟩ := convRow_some_inv hrow
    by_cases hcc : c'' = c
    · subst hcc
      rw [h r hr] at hv
      exact Option.noConfusion hv
    · rw [getCell_setCell_ne r w (fun hh => hcc hh.symm)]
      exact h r hr

theorem cdt_absent {c : String} {m : List (String × Dtype)} :
    ∀ {df : Df}, (∀ r ∈ df, getCell r c = none) →
      ∀ r2 ∈ convertDataTypes df m, getCell r2 c = none := by
  induction m with
  | nil => intro df h r2 hr2; exact h r2 hr2
  | cons ct m ih =>
    intro df h r2 hr2
    obtain ⟨c', t'⟩ := ct
    rw [cdt_cons] at hr2
    exact ih (astypeStep_absent h) r2 hr2

/-- C9: per-field isolation of `convert_data_types`: each declared, present
column ends as its own all-or-nothing conversion (failure leaves it
unchanged) independent of every other column; a column absent from the
frame stays absent (the declaration is skipped); undeclared columns are
untouched; and the pass is a total function. -/
theorem convert_data_types_isolation :
    (∀ (df : Df) (m : List (String × Dtype)), (m.map Prod.fst).Nodup →
      ∀ p ∈ m, hasCol df p.1 = true →
        getColCells (convertDataTypes df m) p.1 =
          match omap (tryConvertCell p.2) (getColCells df p.1) with
          | some l => l
          | none => getColCells df p.1) ∧
    (∀ (df : Df) (m : List (String × Dtype)) (c : String),
      (∀ r ∈ df, getCell r c = none) →
        ∀ r2 ∈ convertDataTypes df m, getCell r2 c = none) ∧
    (∀ (df : Df) (m : List (String × Dtype)) (c : String),
      c ∉ m.map Prod.fst →
        getColCells (convertDataTypes df m) c = getColCells df c) := by
  refine ⟨?_, fun df m c h => cdt_absent h, fun df m c h => cdt_col_ne h df⟩
  intro df m hnodup p hp hcol
  obtain ⟨m1, m2, rfl⟩ := List.append_of_mem hp
  have hmap : (m1 ++ p :: m2).map Prod.fst =
      m1.map Prod.fst ++ p.1 :: m2.map Prod.fst := by simp
  rw [hmap] at hnodup
  have hnm1 : p.1 ∉ m1.map Prod.fst := by
    have hd := (List.nodup_append.mp hnodup).2.2
    intro hmem
    exact hd hmem (by simp)
  have hnm2 : p.1 ∉ m2.map Prod.fst := by
    have hn2 := (List.nodup_append.mp hnodup).2.1
    exact (List.nodup_cons.mp hn2).1
  obtain ⟨c, t⟩ := p
  rw [cdt_append, cdt_cons]
  rw [cdt_col_ne hnm2]
  rw [astypeStep_col_self (by rw [cdt_hasCol]; exact hcol)]
  rw [cdt_col_ne hnm1]

/-- Witness for C9 at a two-column frame where the second column's
conversion fails: the first is still converted. -/
theorem convert_data_types_isolation_witness :
    getColCells (convertDataTypes [[("a", cstr "1"), ("b", cstr "zz")]]
        [("a", Dtype.int64), ("b", Dtype.float64)]) "a" =
      match omap (tryConvertCell Dtype.int64)
          (getColCells [[("a", cstr "1"), ("b", cstr "zz")]] "a") with
      | some l => l
      | none => getColCells [[("a", cstr "1"), ("b", cstr "zz")]] "a" :=
  convert_data_types_isolation.1 [[("a", cstr "1"), ("b", cstr "zz")]]
    [("a", Dtype.int64), ("b", Dtype.float64)] (by decide)
    ("a", Dtype.int64) (by decide) (by decide)

/-! ## C4: idempotence of the three named passes -/

theorem containsSub_cons (pat : List Char) (c : Char) (cs : List Char) :
    containsSub pat (c :: cs) = (pat.isPrefixOf (c :: cs) || containsSub pat cs) := by
  rw [containsSub, containsSub]
  simp [List.tails]

theorem replaceSubGo_of_not_contains {pat repl : List Char} :
    ∀ (fuel : ℕ) (s : List Char), containsSub pat s = false →
      replaceSubGo pat repl fuel s = s := by
  intro fuel
  induction fuel with
  | zero =>
    intro s _
    cases s <;> rfl
  | succ fuel ih =>
    intro s hs
    cases s with
    | nil => rfl
    | cons c cs =>
      rw [containsSub_cons] at hs
      simp only [Bool.or_eq_false_iff] at hs
      rw [replaceSubGo, if_neg (by simp [hs.1]), ih cs hs.2]

theorem replaceSub_of_not_contains {pat repl s : List Char}
    (h : containsSub pat s = false) : replaceSub pat repl s = s := by
  rw [replaceSub]
  by_cases hp : pat = []
  · rw [if_pos hp]
  · rw [if_neg hp]
    exact replaceSubGo_of_not_contains s.length s h

theorem cleanEmail_ok_inv {df df1 : Df} (h : cleanEmailAddresses df = Except.ok df1) :
    hasCol df "email_address" = true ∧
      df1 = mapColAt "email_address"
        (strCellMap (replaceSub "@@".data "@".data)) df := by
  rw [cleanEmailAddresses, strReplaceCol] at h
  by_cases hc : hasCol df "email_address" = true
  · rw [if_pos hc] at h
    cases h
    exact ⟨hc, rfl⟩
  · rw [if_neg hc] at h
    exact Except.noConfusion h

/-- C4 as amended: the country validator and the type-coercion pass are
idempotent on every frame (for coercion, on every dict-like declared map);
the email cleaner is idempotent exactly when its first output carries no
remaining `@@` (four-plus `@`-runs defeat it, see the counterexample). -/
theorem passes_idempotent_amended :
    (∀ df df2 : Df, cleanCountryData df = Except.ok df2 →
      cleanCountryData df2 = Except.ok df2) ∧
    (∀ m : List (String × Dtype), (m.map Prod.fst).Nodup →
      ∀ df : Df, convertDataTypes (convertDataTypes df m) m = convertDataTypes df m) ∧
    (∀ df df1 : Df, cleanEmailAddresses df = Except.ok df1 →
      (∀ r ∈ df1, ∀ s, getCell r "email_address" = some (Cell.str s) →
        containsSub "@@".data s = false) →
      cleanEmailAddresses df1 = Except.ok df1) := by
  refine ⟨fun df df2 h => cleanCountryData_idem h, convertDataTypes_idem, ?_⟩
  intro df df1 h hno
  obtain ⟨hc, rfl⟩ := cleanEmail_ok_inv h
  rw [cleanEmailAddresses, strReplaceCol,
    if_pos (hasCol_mapColAt "email_address" _ hc)]
  congr 1
  refine mapColAt_id (fun r hr v hv => ?_)
  obtain ⟨r0, hr0, hcase⟩ := mem_mapColAt hr
  rcases hcase with ⟨hnone, rfl⟩ | ⟨v0, hv0, rfl⟩
  · rw [hnone] at hv
    exact Option.noConfusion hv
  · rw [getCell_setCell_self] at hv
    cases hv
    cases v0 with
    | str s =>
      have hs : containsSub "@@".data (replaceSub "@@".data "@".data s) = false := by
        refine hno _ hr (replaceSub "@@".data "@".data s) ?_
        rw [getCell_setCell_self]
        rfl
      dsimp only [strCellMap]
      rw [replaceSub_of_not_contains hs]
    | null => rfl
    | int n => rfl
    | float q => rfl
    | cat s => rfl
    | date y m d => rfl

/-- Counterexample to C4 as stated: the email cleaner is not idempotent —
an address with four consecutive `@` needs two applications to reach a
fixed point. -/
theorem email_cleaner_not_idempotent :
    cleanEmailAddresses [[("email_address", cstr "a@@@@b.com")]] =
      Except.ok [[("email_address", cstr "a@@b.com")]] ∧
    cleanEmailAddresses [[("email_address", cstr "a@@b.com")]] =
      Except.ok [[("email_address", cstr "a@b.com")]] ∧
    ([[("email_address", cstr "a@b.com")]] : Df) ≠
      [[("email_address", cstr "a@@b.com")]] := by
  refine ⟨?_, ?_, by decide⟩ <;>
    simp +decide [cleanEmailAddresses, strReplaceCol, hasCol, mapColAt, getCell,
      setCell, strCellMap, replaceSub, replaceSubGo, cstr]

/-- Witness for the amended C4 at concrete frames. -/
theorem passes_idempotent_amended_witness :
    cleanCountryData [[("country_code", Cell.cat "GB".data)]] =
      Except.ok [[("country_code", Cell.cat "GB".data)]] ∧
    convertDataTypes (convertDataTypes [[("a", cstr "1")]] [("a", Dtype.int64)])
        [("a", Dtype.int64)] =
      convertDataTypes [[("a", cstr "1")]] [("a", Dtype.int64)] ∧
    cleanEmailAddresses [[("email_address", cstr "a@b.com")]] =
      Except.ok [[("email_address", cstr "a@b.com")]] :=
  ⟨passes_idempotent_amended.1 [[("country_code", cstr "GB")]]
      [[("country_code", Cell.cat "GB".data)]] (by decide),
   passes_idempotent_amended.2.1 [("a", Dtype.int64)] (by decide) [[("a", cstr "1")]],
   passes_idempotent_amended.2.2 [[("email_address", cstr "a@b.com")]]
      [[("email_address", cstr "a@b.com")]] (by decide)
      (by
        intro r hrr s hs
        simp only [List.mem_singleton] at hrr
        subst hrr
        simp only [cstr] at hs
        rw [show getCell [("email_address", Cell.str "a@b.com".data)] "email_address" =
          some (Cell.str "a@b.com".data) from rfl] at hs
        injection hs with hs2
        injection hs2 with hs3
        subst hs3
        decide)⟩

/-! ## C5: `clean_addresses` -/

theorem mapColAt_comp (c : String) (f1 f2 : Cell → Cell) (df : Df) :
    mapColAt c f2 (mapColAt c f1 df) = mapColAt c (fun v => f2 (f1 v)) df := by
  induction df with
  | nil => rfl
  | cons r df ih =>
    rw [mapColAt, mapColAt, mapColAt] at ih ⊢
    rw [List.map_cons, List.map_cons, List.map_cons]
    congr 1
    cases hv : getCell r c with
    | none => simp only [hv]
    | some v => simp only [hv, getCell_setCell_self, setCell_setCell_same]

theorem strCellMap_comp (f1 f2 : List Char → List Char) (v : Cell) :
    strCellMap f2 (strCellMap f1 v) = strCellMap (fun s => f2 (f1 s)) v := by
  cases v <;> rfl

theorem addr_omap (F : List Char → List Char) :
    ∀ df : Df, hasCol df "address" = true →
      (∀ r ∈ df, ∀ v, getCell r "address" = some v → ∃ s, v = Cell.str s) →
      omap
        (fun r =>
          match getCell r "address" with
          | some (Cell.str s) => some (setCell r "address" (Cell.str (addrFinal s)))
          | _ => none)
        (mapColAt "address" (strCellMap F) df) =
      some (df.map (fun r =>
        match getCell r "address" with
        | some (Cell.str s) => setCell r "address" (Cell.str (addrFinal (F s)))
        | _ => r)) := by
  intro df
  induction df with
  | nil => intro _ _; rfl
  | cons r df ih =>
    intro hcol hstr
    have hhead : (getCell r "address").isSome = true := by
      have := List.all_eq_true.mp hcol r (by simp)
      simpa using this
    cases hv : getCell r "address" with
    | none => rw [hv] at hhead; simp at hhead
    | some v =>
      obtain ⟨s, rfl⟩ := hstr r (by simp) v hv
      have htail := ih (by
          rw [hasCol, List.all_eq_true]
          intro r2 hr2
          exact List.all_eq_true.mp hcol r2 (by simp [hr2]))
        (fun r2 hr2 v2 hv2 => hstr r2 (by simp [hr2]) v2 hv2)
      rw [mapColAt, List.map_cons, hv]
      dsimp only [strCellMap]
      rw [omap, getCell_setCell_self]
      dsimp only
      rw [setCell_setCell_same]
      have htail2 : omap
          (fun r =>
            match getCell r "address" with
            | some (Cell.str s) => some (setCell r "address" (Cell.str (addrFinal s)))
            | _ => none)
          (List.map (fun r =>
            match getCell r "address" with
            | some v => setCell r "address"
                (match v with
                | Cell.str s => Cell.str (F s)
                | _ => Cell.null)
            | none => r) df) =
        some (df.map (fun r =>
          match getCell r "address" with
          | some (Cell.str s) => setCell r "address" (Cell.str (addrFinal (F s)))
          | _ => r)) := htail
      rw [htail2]
      rw [List.map_cons, hv]

theorem cleanAddresses_ok {df : Df} (hcol : hasCol df "address" = true)
    (hstr : ∀ r ∈ df, ∀ v, getCell r "address" = some v → ∃ s, v = Cell.str s) :
    cleanAddresses df = Except.ok (df.map (fun r =>
      match getCell r "address" with
      | some (Cell.str s) =>
        setCell r "address"
          (Cell.str (addrFinal (pyTitle (replaceSub "\n".data " ".data s))))
      | _ => r)) := by
  rw [cleanAddresses, if_pos hcol]
  show (match omap
      (fun r =>
        match getCell r "address" with
        | some (Cell.str s) => some (setCell r "address" (Cell.str (addrFinal s)))
        | _ => none)
      (mapColAt "address" (strCellMap pyTitle)
        (mapColAt "address" (strCellMap (replaceSub "\n".data " ".data)) df)) with
    | some df3 => Except.ok df3
    | none => Except.error PyErr.typeError) = _
  rw [mapColAt_comp]
  rw [show (fun v => strCellMap pyTitle (strCellMap (replaceSub "\n".data " ".data) v)) =
      strCellMap (fun s => pyTitle (replaceSub "\n".data " ".data s)) from
    funext (strCellMap_comp _ _)]
  rw [addr_omap (fun s => pyTitle (replaceSub "\n".data " ".data s)) df hcol hstr]

/-- C5 as amended: on string-valued address columns the pass never raises
and computes, per row, newline-to-space replacement, `str.title`, then the
split/upper-join of the final two tokens (re-joined with single spaces);
for an address with fewer than two tokens the final step upper-cases every
token present instead of leaving the address unchanged. -/
theorem clean_addresses_behavior :
    (∀ df : Df, hasCol df "address" = true →
      (∀ r ∈ df, ∀ v, getCell r "address" = some v → ∃ s, v = Cell.str s) →
      cleanAddresses df = Except.ok (df.map (fun r =>
        match getCell r "address" with
        | some (Cell.str s) =>
          setCell r "address"
            (Cell.str (addrFinal (pyTitle (replaceSub "\n".data " ".data s))))
        | _ => r))) ∧
    (∀ s : List Char, (splitWs s).length < 2 →
      addrFinal s = joinSpace ((splitWs s).map (List.map Char.toUpper))) := by
  refine ⟨fun df hcol hstr => cleanAddresses_ok hcol hstr, fun s hlen => ?_⟩
  rw [addrFinal]
  have h0 : (splitWs s).length - 2 = 0 := by omega
  rw [h0]
  simp

/-- Counterexample to C5 as stated: a one-token address is not left alone —
it is upper-cased. -/
theorem clean_addresses_single_token_modified :
    cleanAddresses [[("address", cstr "main")]] =
      Except.ok [[("address", cstr "MAIN")]] ∧
    "MAIN".data ≠ "main".data := by
  refine ⟨?_, by decide⟩
  decide

/-- Witness for the amended C5 at a concrete two-row frame. -/
theorem clean_addresses_behavior_witness :
    cleanAddresses [[("address", cstr "12 high street\nlondon ab1 2cd")]] =
      Except.ok ([[("address", cstr "12 high street\nlondon ab1 2cd")]].map (fun r =>
        match getCell r "address" with
        | some (Cell.str s) =>
          setCell r "address"
            (Cell.str (addrFinal (pyTitle (replaceSub "\n".data " ".data s))))
        | _ => r)) :=
  clean_addresses_behavior.1 [[("address", cstr "12 high street\nlondon ab1 2cd")]]
    (by decide)
    (by
      intro r hrr v hv
      simp only [List.mem_singleton] at hrr
      subst hrr
      exact ⟨"12 high street\nlondon ab1 2cd".data, by
        simp only [cstr] at hv
        injection hv with hv2
        exact hv2.symm⟩)

/-! ## C8: the cards recipe -/

theorem mem_setCell {p : String × Cell} {r : Row} {c : String} {v : Cell}
    (h : p ∈ setCell r c v) : p ∈ r ∨ p = (c, v) := by
  induction r with
  | nil => simp [setCell] at h; exact Or.inr h
  | cons q rest ih =>
    rw [setCell] at h
    by_cases hq : q.1 = c
    · rw [if_pos hq] at h
      rcases List.mem_cons.mp h with rfl | h2
      · exact Or.inr rfl
      · exact Or.inl (List.mem_cons_of_mem _ h2)
    · rw [if_neg hq] at h
      rcases List.mem_cons.mp h with rfl | h2
      · exact Or.inl (List.mem_cons_self _ _)
      · rcases ih h2 with h3 | h3
        · exact Or.inl (List.mem_cons_of_mem _ h3)
        · exact Or.inr h3

theorem mem_replaceSubGo_empty {pat : List Char} {ch : Char} :
    ∀ (fuel : ℕ) (s : List Char), ch ∈ replaceSubGo pat [] fuel s → ch ∈ s := by
  intro fuel
  induction fuel with
  | zero =>
    intro s h
    cases s with
    | nil => simp [replaceSubGo] at h
    | cons c cs => simp only [replaceSubGo] at h; exact h
  | succ fuel ih =>
    intro s h
    cases s with
    | nil => simp [replaceSubGo] at h
    | cons c cs =>
      rw [replaceSubGo] at h
      by_cases hp : pat.isPrefixOf (c :: cs) = true
      · rw [if_pos hp] at h
        simp only [List.nil_append] at h
        have := ih _ h
        exact List.mem_cons_of_mem _ (List.drop_subset _ cs this)
      · rw [if_neg hp] at h
        rcases List.mem_cons.mp h with rfl | h2
        · exact List.mem_cons_self _ _
        · exact List.mem_cons_of_mem _ (ih _ h2)

theorem mem_replaceSub_empty {pat s : List Char} {ch : Char}
    (h : ch ∈ replaceSub pat [] s) : ch ∈ s := by
  rw [replaceSub] at h
  by_cases hp : pat = []
  · rwa [if_pos hp] at h
  · rw [if_neg hp] at h
    exact mem_replaceSubGo_empty s.length s h

theorem trim_subset {ch : Char} {s : List Char}
    (h : ch ∈ ((s.dropWhile isWs).reverse.dropWhile isWs).reverse) : ch ∈ s := by
  rw [List.mem_reverse] at h
  have h2 := (List.dropWhile_sublist isWs).subset h
  rw [List.mem_reverse] at h2
  exact (List.dropWhile_sublist isWs).subset h2

theorem pyInt_nonneg_of_digits {s : List Char} {n : ℤ}
    (hd : ∀ ch ∈ s, ch.isDigit = true) (hp : pyInt s = some n) : 0 ≤ n := by
  rw [pyInt] at hp
  split at hp
  · rename_i rest heq
    have hmem : '-' ∈ s := trim_subset (heq ▸ List.mem_cons_self '-' rest)
    have := hd '-' hmem
    simp at this
  · rename_i rest heq
    have hmem : '+' ∈ s := trim_subset (heq ▸ List.mem_cons_self '+' rest)
    have := hd '+' hmem
    simp at this
  · cases hdig : digitsToNat ((List.dropWhile isWs (List.dropWhile isWs s).reverse).reverse) with
    | none => simp only [hdig] at hp; simp at hp
    | some k =>
      simp only [hdig] at hp
      have hk : (k : ℤ) = n := by simpa using hp
      rw [← hk]
      exact Int.natCast_nonneg k

theorem strReplaceCol_ok_inv {df df2 : Df} {c : String} {pat repl : List Char}
    (h : strReplaceCol df c pat repl = Except.ok df2) :
    hasCol df c = true ∧
      df2 = mapColAt c (strCellMap (replaceSub pat repl)) df := by
  rw [strReplaceCol] at h
  by_cases hc : hasCol df c = true
  · rw [if_pos hc] at h
    cases h
    exact ⟨hc, rfl⟩
  · rw [if_neg hc] at h
    exact Except.noConfusion h

theorem parseDateColStrict_ok_inv {df df2 : Df} {c : String}
    (h : parseDateColStrict df c = Except.ok df2) :
    ∀ r2 ∈ df2, ∃ r ∈ df, ∃ s ymd, getCell r c = some (Cell.str s) ∧
      parsePermissive s = some ymd ∧
      r2 = setCell r c (Cell.date ymd.1 ymd.2.1 ymd.2.2) := by
  rw [parseDateColStrict] at h
  by_cases hc : hasCol df c = true
  · rw [if_pos hc] at h
    intro r2 hr2
    cases homap : omap (fun r =>
        match getCell r c with
        | some (Cell.str s) =>
          (parsePermissive s).map (fun ymd => setCell r c (Cell.date ymd.1 ymd.2.1 ymd.2.2))
        | _ => none) df with
    | none => rw [homap] at h; exact Except.noConfusion h
    | some dfx =>
      rw [homap] at h
      cases h
      obtain ⟨r, hr, hrow⟩ := forall2_mem_right (omap_eq_some_iff.mp homap) hr2
      refine ⟨r, hr, ?_⟩
      split at hrow
      all_goals try exact Option.noConfusion hrow
      rename_i s heq
      cases hps : parsePermissive s with
      | none => rw [hps] at hrow; exact Option.noConfusion hrow
      | some ymd =>
        rw [hps] at hrow
        simp only [Option.map_some'] at hrow
        cases hrow
        exact ⟨s, ymd, heq, hps, rfl⟩
  · rw [if_neg hc] at h
    exact Except.noConfusion h

theorem astypeStrict_ok_inv {df out : Df} {c : String} {t : Dtype}
    (h : astypeStrict c t df = Except.ok out) :
    ∀ r2 ∈ out, ∃ r ∈ df, ∃ v w, getCell r c = some v ∧
      tryConvertCell t v = some w ∧ r2 = setCell r c w := by
  rw [astypeStrict] at h
  by_cases hc : hasCol df c = true
  · rw [if_pos hc] at h
    intro r2 hr2
    cases homap : omap (convRow c t) df with
    | none => rw [homap] at h; exact Except.noConfusion h
    | some dfx =>
      rw [homap] at h
      cases h
      obtain ⟨r, hr, hrow⟩ := forall2_mem_right (omap_eq_some_iff.mp homap) hr2
      obtain ⟨v, w, hv, hw, rfl⟩ := convRow_some_inv hrow
      exact ⟨r, hr, v, w, hv, hw, rfl⟩
  · rw [if_neg hc] at h
    exact Except.noConfusion h

theorem cleanCardData_ok_inv {df out : Df} (h : cleanCardData df = Except.ok out) :
    ∃ df2 df4,
      strReplaceCol (dropDupKeepFalse df) "card_number" "?".data [] = Except.ok df2 ∧
      parseDateColStrict
        (df2.filter (fun r => !cardHasAlphaQ ((getCell r "card_number").getD Cell.null)))
        "date_payment_confirmed" = Except.ok df4 ∧
      astypeStrict "card_number" Dtype.int64 (dropna df4) = Except.ok out := by
  rw [cleanCardData] at h
  cases h2 : strReplaceCol (dropDupKeepFalse df) "card_number" "?".data [] with
  | error e =>
    rw [h2] at h
    dsimp only [Bind.bind, Except.bind] at h
    exact Except.noConfusion h
  | ok df2 =>
    rw [h2] at h
    dsimp only [Bind.bind, Except.bind] at h
    cases h4 : parseDateColStrict
        (df2.filter (fun r => !cardHasAlphaQ ((getCell r "card_number").getD Cell.null)))
        "date_payment_confirmed" with
    | error e =>
      rw [h4] at h
      dsimp only [Bind.bind, Except.bind] at h
      exact Except.noConfusion h
    | ok df4 =>
      rw [h4] at h
      dsimp only [Bind.bind, Except.bind] at h
      exact ⟨df2, df4, rfl, h4, h⟩

theorem getCell_mem {r : Row} {c : String} {v : Cell}
    (h : getCell r c = some v) : (c, v) ∈ r := by
  induction r with
  | nil => simp [getCell] at h
  | cons p rest ih =>
    obtain ⟨k, u⟩ := p
    rw [getCell] at h
    by_cases hp : k = c
    · rw [if_pos hp] at h
      cases h
      subst hp
      exact List.mem_cons_self _ _
    · rw [if_neg hp] at h
      exact List.mem_cons_of_mem _ (ih h)

theorem tryConvertInt_str_inv {bits : ℕ} {s : List Char} {w : Cell}
    (h : tryConvertCell.tryConvertInt bits (Cell.str s) = some w) :
    ∃ n : ℤ, pyInt s = some n ∧ w = Cell.int n := by
  rw [tryConvertCell.tryConvertInt] at h
  cases hp : pyInt s with
  | none => rw [hp] at h; exact Option.noConfusion h
  | some n =>
    rw [hp] at h
    dsimp only [Option.bind] at h
    by_cases hf : intFits bits n = true
    · rw [if_pos hf] at h
      cases h
      exact ⟨n, rfl, rfl⟩
    · rw [if_neg hf] at h
      exact Option.noConfusion h

/-- C8 as amended: the `"1234?"` row survives as integer `1234` while the
`"12a4"` row is dropped; a successful run leaves no null cell and an
integer `card_number` in every row, nonnegative whenever the raw values
are drawn from digits, letters and `?`.  Full-row duplicates of the raw
input are removed up front, but `?`-stripping can re-create equal rows
(see the counterexample), so no duplicate-freeness holds at the end. -/
theorem clean_card_behavior :
    cleanCardData
      [[("card_number", cstr "1234?"), ("date_payment_confirmed", cstr "2020-01-15")],
       [("card_number", cstr "12a4"), ("date_payment_confirmed", cstr "2020-01-15")]] =
      Except.ok
        [[("card_number", Cell.int 1234),
          ("date_payment_confirmed", Cell.date 2020 1 15)]] ∧
    (∀ df out : Df, cleanCardData df = Except.ok out →
      (∀ r ∈ out, ∀ p ∈ r, p.2 ≠ Cell.null) ∧
      (∀ r ∈ out, ∃ n : ℤ, getCell r "card_number" = some (Cell.int n))) ∧
    (∀ df out : Df, cleanCardData df = Except.ok out →
      (∀ r ∈ df, ∀ s, getCell r "card_number" = some (Cell.str s) →
        s.all (fun ch => ch.isDigit || ch.isAlpha || ch = '?') = true) →
      ∀ r ∈ out, ∃ n : ℤ, getCell r "card_number" = some (Cell.int n) ∧ 0 ≤ n) := by
  refine ⟨by decide, ?_, ?_⟩
  · intro df out hok
    obtain ⟨df2, df4, h2, h4, h6⟩ := cleanCardData_ok_inv hok
    constructor
    · intro r hr p hp
      obtain ⟨r5, hr5, v, w, hv5, hw, rfl⟩ := astypeStrict_ok_inv h6 r hr
      obtain ⟨n, rfl, hfits⟩ := tryConvertInt_some_inv hw
      obtain ⟨hr5df4, hnonull⟩ := List.mem_filter.mp hr5
      rcases mem_setCell hp with hp2 | rfl
      · have := List.all_eq_true.mp hnonull p hp2
        simpa using this
      · simp
    · intro r hr
      obtain ⟨r5, hr5, v, w, hv5, hw, rfl⟩ := astypeStrict_ok_inv h6 r hr
      obtain ⟨n, rfl, hfits⟩ := tryConvertInt_some_inv hw
      exact ⟨n, getCell_setCell_self _ _ _⟩
  · intro df out hok hchar r hr
    obtain ⟨df2, df4, h2, h4, h6⟩ := cleanCardData_ok_inv hok
    obtain ⟨hcol2, hdf2⟩ := strReplaceCol_ok_inv h2
    obtain ⟨r5, hr5, v, w, hv5, hw, rfl⟩ := astypeStrict_ok_inv h6 r hr
    obtain ⟨hr5df4, hnonull⟩ := List.mem_filter.mp hr5
    have hvnn : v ≠ Cell.null := by
      have := List.all_eq_true.mp hnonull _ (getCell_mem hv5)
      simpa using this
    obtain ⟨r3, hr3, s4, ymd, hv3, hps, heq5⟩ := parseDateColStrict_ok_inv h4 r5 hr5df4
    subst heq5
    rw [getCell_setCell_ne r3 _ (by decide : "card_number" ≠ "date_payment_confirmed")]
      at hv5
    obtain ⟨hr3df2, hfilt⟩ := List.mem_filter.mp hr3
    rw [hdf2] at hr3df2
    obtain ⟨r1, hr1, hcase⟩ := mem_mapColAt hr3df2
    rcases hcase with ⟨hnone, heqr⟩ | ⟨v1, hv1, heqr⟩
    · rw [heqr, hnone] at hv5
      exact Option.noConfusion hv5
    · rw [heqr, getCell_setCell_self] at hv5
      cases hv5
      cases v1 with
      | str s =>
        have hr1df : r1 ∈ df := (List.mem_filter.mp hr1).1
        have hcs := hchar r1 hr1df s hv1
        have hfilt2 : cardHasAlphaQ (Cell.str (replaceSub "?".data [] s)) = false := by
          rw [heqr, getCell_setCell_self] at hfilt
          simpa using hfilt
        have hdigits : ∀ ch ∈ replaceSub "?".data [] s, ch.isDigit = true := by
          intro ch hch
          have hchs : ch ∈ s := mem_replaceSub_empty hch
          have hcls := List.all_eq_true.mp hcs ch hchs
          have hgen : (ch.isAlpha || decide (ch = '?')) = false := by
            by_contra hcon
            have hany : (replaceSub "?".data [] s).any
                (fun c => c.isAlpha || decide (c = '?')) = true :=
              List.any_eq_true.mpr ⟨ch, hch, by
                revert hcon
                cases ch.isAlpha || decide (ch = '?') <;> simp⟩
            rw [cardHasAlphaQ] at hfilt2
            rw [hany] at hfilt2
            exact Bool.noConfusion hfilt2
          cases hdg : ch.isDigit with
          | true => rfl
          | false =>
            rw [hdg] at hcls
            simp only [Bool.false_or] at hcls
            rw [hcls] at hgen
            exact Bool.noConfusion hgen
        obtain ⟨n, hp, rfl⟩ := tryConvertInt_str_inv hw
        refine ⟨n, getCell_setCell_self _ _ _, pyInt_nonneg_of_digits hdigits hp⟩
      | null => exact absurd rfl hvnn
      | int n => exact absurd rfl hvnn
      | float q => exact absurd rfl hvnn
      | cat s => exact absurd rfl hvnn
      | date y m d => exact absurd rfl hvnn

/-- Counterexample to C8 as stated: stripping `?` can make two surviving
rows identical, and an all-zero card number survives as the non-positive
integer 0. -/
theorem clean_card_duplicates_recreated :
    cleanCardData
      [[("card_number", cstr "1234?"), ("date_payment_confirmed", cstr "2020-01-15")],
       [("card_number", cstr "1234"), ("date_payment_confirmed", cstr "2020-01-15")],
       [("card_number", cstr "0000"), ("date_payment_confirmed", cstr "2020-01-15")]] =
      Except.ok
        [[("card_number", Cell.int 1234),
          ("date_payment_confirmed", Cell.date 2020 1 15)],
         [("card_number", Cell.int 1234),
          ("date_payment_confirmed", Cell.date 2020 1 15)],
         [("card_number", Cell.int 0),
          ("date_payment_confirmed", Cell.date 2020 1 15)]] := by
  decide

/-- Witness for the amended C8 at the concrete two-row frame. -/
theorem clean_card_behavior_witness :
    ∃ n : ℤ,
      getCell [("card_number", Cell.int 1234),
        ("date_payment_confirmed", Cell.date 2020 1 15)] "card_number" =
        some (Cell.int n) ∧ 0 ≤ n :=
  clean_card_behavior.2.2
    [[("card_number", cstr "1234?"), ("date_payment_confirmed", cstr "2020-01-15")],
     [("card_number", cstr "12a4"), ("date_payment_confirmed", cstr "2020-01-15")]]
    [[("card_number", Cell.int 1234), ("date_payment_confirmed", Cell.date 2020 1 15)]]
    clean_card_behavior.1
    (by
      intro r hrr s hs
      rcases List.mem_cons.mp hrr with rfl | hrr2
      · simp only [cstr] at hs
        rw [show getCell [("card_number", Cell.str "1234?".data),
            ("date_payment_confirmed", Cell.str "2020-01-15".data)] "card_number" =
          some (Cell.str "1234?".data) from rfl] at hs
        injection hs with hs2
        injection hs2 with hs3
        subst hs3
        decide
      · rcases List.mem_cons.mp hrr2 with rfl | hrr3
        · simp only [cstr] at hs
          rw [show getCell [("card_number", Cell.str "12a4".data),
              ("date_payment_confirmed", Cell.str "2020-01-15".data)] "card_number" =
            some (Cell.str "12a4".data) from rfl] at hs
          injection hs with hs2
          injection hs2 with hs3
          subst hs3
          decide
        · simp at hrr3)
    [("card_number", Cell.int 1234), ("date_payment_confirmed", Cell.date 2020 1 15)]
    (by decide)

/-! ## C10: the all-or-nothing extension split in `clean_phone_numbers` -/

theorem splitSubGo_single_length (c0 : Char) :
    ∀ (fuel : ℕ) (s : List Char), s.length ≤ fuel →
      (splitSubGo [c0] fuel s).length = s.count c0 + 1 := by
  intro fuel
  induction fuel with
  | zero =>
    intro s hs
    interval_cases hlen : s.length
    · rw [List.length_eq_zero.mp hlen]
      rfl
  | succ fuel ih =>
    intro s hs
    cases s with
    | nil => rfl
    | cons c cs =>
      rw [splitSubGo]
      by_cases hp : [c0].isPrefixOf (c :: cs) = true
      · have hc : c = c0 := by
          simp [List.isPrefixOf] at hp
          exact hp.symm
        rw [if_pos hp]
        subst hc
        show (splitSubGo [c] fuel cs).length + 1 = List.count c (c :: cs) + 1
        rw [ih cs (by simpa using hs), List.count_cons_self]
      · have hc : ¬(c = c0) := by
          simp [List.isPrefixOf] at hp
          exact fun hh => hp hh.symm
        rw [if_neg hp]
        cases hrec : splitSubGo [c0] fuel cs with
        | nil => exact absurd hrec (splitSubGo_ne_nil _ _ _)
        | cons p ps =>
          have := ih cs (by simpa using hs)
          rw [hrec] at this
          simp only [List.modifyHead, List.length_cons] at this ⊢
          rw [List.count_cons_of_ne (fun hh => hc hh.symm)]
          omega

theorem splitSub_single_length (c0 : Char) (s : List Char) :
    (splitSub [c0] s).length = s.count c0 + 1 := by
  rw [splitSub, if_neg (by simp)]
  exact splitSubGo_single_length c0 s.length s le_rfl

theorem foldl_max_init : ∀ (l : List ℕ) (acc : ℕ), acc ≤ l.foldl Nat.max acc := by
  intro l
  induction l with
  | nil => exact fun acc => le_rfl
  | cons b l ih =>
    intro acc
    exact le_trans (Nat.le_max_left acc b) (ih (Nat.max acc b))

theorem foldl_max_mem {a : ℕ} : ∀ (l : List ℕ) (acc : ℕ), a ∈ l →
    a ≤ l.foldl Nat.max acc := by
  intro l
  induction l with
  | nil => intro acc h; simp at h
  | cons b l ih =>
    intro acc h
    rcases List.mem_cons.mp h with rfl | h2
    · exact le_trans (Nat.le_max_right acc a) (foldl_max_init l (Nat.max acc a))
    · exact ih (Nat.max acc b) h2

theorem count_replaceSubGo {pat : List Char} {x : Char} (hx : x ∉ pat)
    (hpat : pat ≠ []) :
    ∀ (fuel : ℕ) (s : List Char), s.length ≤ fuel →
      (replaceSubGo pat [] fuel s).count x = s.count x := by
  intro fuel
  induction fuel with
  | zero =>
    intro s hs
    interval_cases hlen : s.length
    · rw [List.length_eq_zero.mp hlen]
      rfl
  | succ fuel ih =>
    intro s hs
    cases s with
    | nil => rfl
    | cons c cs =>
      rw [replaceSubGo]
      by_cases hp : pat.isPrefixOf (c :: cs) = true
      · rw [if_pos hp]
        simp only [List.nil_append]
        have hdecomp := isPrefixOf_append_drop hp
        have hdrop : cs.drop (pat.length - 1) = (c :: cs).drop pat.length := by
          obtain ⟨m, hm⟩ := Nat.exists_eq_succ_of_ne_zero
            (fun hh => hpat (List.length_eq_zero.mp hh))
          rw [hm]
          simp
        have hlen2 : (cs.drop (pat.length - 1)).length ≤ fuel := by
          simp only [List.length_drop, List.length_cons] at *
          omega
        rw [ih _ hlen2]
        have hcount : (c :: cs).count x = pat.count x + ((c :: cs).drop pat.length).count x := by
          conv_lhs => rw [← hdecomp]
          rw [List.count_append]
        rw [hdrop, hcount, List.count_eq_zero.mpr hx]
        omega
      · rw [if_neg hp]
        have hlen2 : cs.length ≤ fuel := by simpa using hs
        by_cases hc : c = x
        · subst hc
          rw [List.count_cons_self, List.count_cons_self, ih cs hlen2]
        · rw [List.count_cons_of_ne (fun hh => hc hh.symm), ih cs hlen2,
            List.count_cons_of_ne (fun hh => hc hh.symm)]

theorem count_replaceSub {pat s : List Char} {x : Char} (hx : x ∉ pat) :
    (replaceSub pat [] s).count x = s.count x := by
  rw [replaceSub]
  by_cases hp : pat = []
  · rw [if_pos hp]
  · rw [if_neg hp]
    exact count_replaceSubGo hx hp s.length s le_rfl

theorem count_phoneStrip (s : List Char) : (phoneStrip s).count 'x' = s.count 'x' := by
  rw [phoneStrip]
  induction s with
  | nil => rfl
  | cons c cs ih =>
    rw [List.filter_cons]
    by_cases hc : c = 'x'
    · subst hc
      rw [if_pos (by decide)]
      rw [List.count_cons_self, List.count_cons_self, ih]
    · by_cases hk : (c.isAlphanum || decide (c = '+')) = true
      · rw [if_pos hk]
        rw [List.count_cons_of_ne (fun hh => hc hh.symm), ih,
          List.count_cons_of_ne (fun hh => hc hh.symm)]
      · rw [if_neg hk]
        rw [ih, List.count_cons_of_ne (fun hh => hc hh.symm)]

theorem cleanPhoneNumbers_no_split {df : Df} (hcol : hasCol df "phone_number" = true)
    (hbig : ((df.map (fun r =>
      match getCell r "phone_number" with
      | some (Cell.str s) => (splitSub ['x'] s).length
      | _ => 1)).foldl Nat.max 0) ≠ 2) :
    cleanPhoneNumbers df = Except.ok
      (mapColAt "phone_number"
        (strCellMap (fun s => phoneStrip (replaceSub "(0)".data [] s))) df) := by
  rw [cleanPhoneNumbers, if_pos hcol]
  show Except.ok (mapColAt "phone_number" (strCellMap phoneStrip)
    (mapColAt "phone_number" (strCellMap (replaceSub "(0)".data []))
      (if ((df.map (fun r =>
        match getCell r "phone_number" with
        | some (Cell.str s) => (splitSub ['x'] s).length
        | _ => 1)).foldl Nat.max 0) = 2 then _ else df))) = _
  rw [if_neg hbig, mapColAt_comp]
  rw [show (fun v => strCellMap phoneStrip (strCellMap (replaceSub "(0)".data []) v)) =
      strCellMap (fun s => phoneStrip (replaceSub "(0)".data [] s)) from
    funext (strCellMap_comp _ _)]

/-- C10: `str.split('x', expand=True)` splits at every `x`, so one row with
two or more `x` characters makes the two-column assignment fail for the
whole frame; the `ValueError` is caught, no `phone_ext` column is created
for any row, and the later character strip keeps every `x` (counts of `x`
are preserved by both remaining transformations). -/
theorem clean_phone_extension_all_or_nothing :
    (∀ df : Df, hasCol df "phone_number" = true →
      (∃ r ∈ df, ∃ s : List Char, getCell r "phone_number" = some (Cell.str s) ∧
        2 ≤ s.count 'x') →
      (∀ r ∈ df, getCell r "phone_ext" = none) →
      ∃ out, cleanPhoneNumbers df = Except.ok out ∧
        (∀ r2 ∈ out, getCell r2 "phone_ext" = none) ∧
        out = mapColAt "phone_number"
          (strCellMap (fun s => phoneStrip (replaceSub "(0)".data [] s))) df) ∧
    (∀ s : List Char, (phoneStrip s).count 'x' = s.count 'x') ∧
    (∀ s : List Char, (replaceSub "(0)".data [] s).count 'x' = s.count 'x') := by
  refine ⟨?_, count_phoneStrip, fun s => count_replaceSub (by decide)⟩
  intro df hcol hwit hnoext
  obtain ⟨r, hr, s, hv, hcount⟩ := hwit
  have hwid : (splitSub ['x'] s).length ∈ df.map (fun r =>
      match getCell r "phone_number" with
      | some (Cell.str s) => (splitSub ['x'] s).length
      | _ => 1) := by
    refine List.mem_map.mpr ⟨r, hr, ?_⟩
    rw [hv]
  have hbig : ((df.map (fun r =>
      match getCell r "phone_number" with
      | some (Cell.str s) => (splitSub ['x'] s).length
      | _ => 1)).foldl Nat.max 0) ≠ 2 := by
    have hle := foldl_max_mem _ 0 hwid
    rw [splitSub_single_length] at hle
    omega
  refine ⟨_, cleanPhoneNumbers_no_split hcol hbig, ?_, rfl⟩
  intro r2 hr2
  obtain ⟨r0, hr0, hcase⟩ := mem_mapColAt hr2
  rcases hcase with ⟨_, heq⟩ | ⟨v0, _, heq⟩
  · rw [heq]
    exact hnoext r0 hr0
  · rw [heq, getCell_setCell_ne r0 _ (by decide : "phone_ext" ≠ "phone_number")]
    exact hnoext r0 hr0

/-- Witness for C10 at a one-row frame whose phone number has two `x`s. -/
theorem clean_phone_extension_all_or_nothing_witness :
    ∃ out, cleanPhoneNumbers [[("phone_number", cstr "+44 1x2x3")]] = Except.ok out ∧
      (∀ r2 ∈ out, getCell r2 "phone_ext" = none) ∧
      out = mapColAt "phone_number"
        (strCellMap (fun s => phoneStrip (replaceSub "(0)".data [] s)))
        [[("phone_number", cstr "+44 1x2x3")]] :=
  clean_phone_extension_all_or_nothing.1 [[("phone_number", cstr "+44 1x2x3")]]
    (by decide)
    ⟨[("phone_number", cstr "+44 1x2x3")], by decide, "+44 1x2x3".data,
      by decide, by decide⟩
    (by decide)

/-! ## C6: the stores recipe -/

theorem getCell_rowFilter_ne {r : Row} {c c' : String} (hne : c' ≠ c) :
    getCell (r.filter (fun p => !(p.1 == c))) c' = getCell r c' := by
  induction r with
  | nil => rfl
  | cons p rest ih =>
    obtain ⟨k, u⟩ := p
    rw [List.filter_cons]
    by_cases hk : k = c
    · rw [if_neg (by simp [hk])]
      rw [ih]
      rw [show getCell ((k, u) :: rest) c' = getCell rest c' from by
        rw [getCell, if_neg (fun hh => hne (hh.symm.trans hk))]]
    · rw [if_pos (by simp [hk])]
      rw [getCell, getCell]
      by_cases hkc : k = c'
      · rw [if_pos hkc, if_pos hkc]
      · rw [if_neg hkc, if_neg hkc, ih]

theorem mapColAt_pres {c c2 : String} (hne : c2 ≠ c) {f : Cell → Cell} {df : Df} :
    ∀ r' ∈ mapColAt c f df, ∃ r ∈ df, getCell r' c2 = getCell r c2 := by
  intro r' hr'
  obtain ⟨r, hr, hcase⟩ := mem_mapColAt hr'
  rcases hcase with ⟨_, heq⟩ | ⟨v, _, heq⟩
  · exact ⟨r, hr, by rw [heq]⟩
  · exact ⟨r, hr, by rw [heq, getCell_setCell_ne _ _ hne]⟩

theorem parseDateColStrict_hasCol {df df2 : Df} {c : String}
    (h : parseDateColStrict df c = Except.ok df2) (c' : String)
    (hc : hasCol df c' = true) : hasCol df2 c' = true := by
  rw [hasCol, List.all_eq_true]
  intro r2 hr2
  obtain ⟨r, hr, s, ymd, hv, hps, rfl⟩ := parseDateColStrict_ok_inv h r2 hr2
  by_cases hcc : c' = c
  · subst hcc
    simp [getCell_setCell_self]
  · rw [getCell_setCell_ne _ _ hcc]
    simpa using List.all_eq_true.mp hc r hr

theorem country_hasCol {df df2 : Df} (h : cleanCountryData df = Except.ok df2)
    (c' : String) (hc : hasCol df c' = true) : hasCol df2 c' = true := by
  obtain ⟨hcol, rfl⟩ := cleanCountryData_ok_inv h
  rw [hasCol, List.all_eq_true]
  intro r2 hr2
  obtain ⟨r, hr, hrow⟩ := List.mem_filterMap.mp hr2
  obtain ⟨s, rfl, hs⟩ := countryRow_some_inv hrow
  by_cases hcc : c' = "country_code"
  · subst hcc
    simp [getCell_setCell_self]
  · rw [getCell_setCell_ne _ _ hcc]
    simpa using List.all_eq_true.mp hc r hr

theorem dropColumn_hasCol {df : Df} {c c' : String} (hne : c' ≠ c)
    (hc : hasCol df c' = true) : hasCol (dropColumn df c) c' = true := by
  rw [hasCol, List.all_eq_true]
  intro r2 hr2
  obtain ⟨r, hr, rfl⟩ := List.mem_map.mp hr2
  rw [getCell_rowFilter_ne hne]
  simpa using List.all_eq_true.mp hc r hr

theorem country_pres {df df2 : Df} (h : cleanCountryData df = Except.ok df2)
    {c2 : String} (hne : c2 ≠ "country_code") :
    ∀ r2 ∈ df2, ∃ r ∈ df, getCell r2 c2 = getCell r c2 := by
  obtain ⟨hcol, rfl⟩ := cleanCountryData_ok_inv h
  intro r2 hr2
  obtain ⟨r, hr, hrow⟩ := List.mem_filterMap.mp hr2
  obtain ⟨s, rfl, hs⟩ := countryRow_some_inv hrow
  exact ⟨r, hr, getCell_setCell_ne _ _ hne⟩

theorem parseDate_pres {df df2 : Df} {c : String}
    (h : parseDateColStrict df c = Except.ok df2) {c2 : String} (hne : c2 ≠ c) :
    ∀ r2 ∈ df2, ∃ r ∈ df, getCell r2 c2 = getCell r c2 := by
  intro r2 hr2
  obtain ⟨r, hr, s, ymd, hv, hps, rfl⟩ := parseDateColStrict_ok_inv h r2 hr2
  exact ⟨r, hr, getCell_setCell_ne _ _ hne⟩

theorem dropColumn_pres {df : Df} {c c2 : String} (hne : c2 ≠ c) :
    ∀ r2 ∈ dropColumn df c, ∃ r ∈ df, getCell r2 c2 = getCell r c2 := by
  intro r2 hr2
  obtain ⟨r, hr, rfl⟩ := List.mem_map.mp hr2
  exact ⟨r, hr, getCell_rowFilter_ne hne⟩

theorem cleanStoreData_ok_inv {df out : Df} (h : cleanStoreData df = Except.ok out) :
    ∃ df2 df3 df4 df6 df7,
      cleanCountryData (dropColumn df "lat") = Except.ok df2 ∧
      strReplaceCol df2 "address" "\n".data ", ".data = Except.ok df3 ∧
      strReplaceCol df3 "continent" "ee".data [] = Except.ok df4 ∧
      hasCol df4 "staff_numbers" = true ∧
      strReplaceCol (mapColAt "staff_numbers" stripLettersCell df4)
        "longitude" "N/A".data "NaN".data = Except.ok df6 ∧
      parseDateColStrict df6 "opening_date" = Except.ok df7 ∧
      out = convertDataTypes df7
        [("longitude", Dtype.float64), ("latitude", Dtype.float64),
         ("staff_numbers", Dtype.int16)] := by
  rw [cleanStoreData] at h
  by_cases hlat : hasCol df "lat" = true
  · rw [if_pos hlat] at h
    cases h2 : cleanCountryData (dropColumn df "lat") with
    | error e =>
      rw [h2] at h
      dsimp only [Bind.bind, Except.bind] at h
      exact Except.noConfusion h
    | ok df2 =>
      rw [h2] at h
      dsimp only [Bind.bind, Except.bind] at h
      cases h3 : strReplaceCol df2 "address" "\n".data ", ".data with
      | error e =>
        rw [h3] at h
        dsimp only [Bind.bind, Except.bind] at h
        exact Except.noConfusion h
      | ok df3 =>
        rw [h3] at h
        dsimp only [Bind.bind, Except.bind] at h
        cases h4 : strReplaceCol df3 "continent" "ee".data [] with
        | error e =>
          rw [h4] at h
          dsimp only [Bind.bind, Except.bind] at h
          exact Except.noConfusion h
        | ok df4 =>
          rw [h4] at h
          dsimp only [Bind.bind, Except.bind] at h
          by_cases h5 : hasCol df4 "staff_numbers" = true
          · rw [if_pos h5] at h
            dsimp only [Bind.bind, Except.bind] at h
            cases h6 : strReplaceCol (mapColAt "staff_numbers" stripLettersCell df4)
                "longitude" "N/A".data "NaN".data with
            | error e =>
              rw [h6] at h
              dsimp only [Bind.bind, Except.bind] at h
              exact Except.noConfusion h
            | ok df6 =>
              rw [h6] at h
              dsimp only [Bind.bind, Except.bind] at h
              cases h7 : parseDateColStrict df6 "opening_date" with
              | error e =>
                rw [h7] at h
                dsimp only [Bind.bind, Except.bind] at h
                exact Except.noConfusion h
              | ok df7 =>
                rw [h7] at h
                dsimp only [Bind.bind, Except.bind] at h
                exact ⟨df2, df3, df4, df6, df7, rfl, h3, h4, h5, h6, h7,
                  (Except.ok.inj h).symm⟩
          · rw [if_neg h5] at h
            dsimp only [Bind.bind, Except.bind] at h
            exact Except.noConfusion h
  · rw [if_neg hlat] at h
    exact Except.noConfusion h

theorem cdt_nil (df : Df) : convertDataTypes df [] = df := rfl

theorem float64_shape {v w : Cell} (h : tryConvertCell Dtype.float64 v = some w) :
    (∃ q, w = Cell.float q) ∨ w = Cell.null := by
  cases v with
  | null => exact Or.inr (Option.some.inj h).symm
  | int n => exact Or.inl ⟨(n : ℚ), (Option.some.inj h).symm⟩
  | float q => exact Or.inl ⟨q, (Option.some.inj h).symm⟩
  | date y m d => exact Option.noConfusion h
  | str s =>
    rw [show tryConvertCell Dtype.float64 (Cell.str s) =
        (if isNanStr s then some Cell.null else (pyFloat s).map Cell.float) from rfl] at h
    split at h
    · exact Or.inr (Option.some.inj h).symm
    · obtain ⟨q, hq, hw⟩ := Option.map_eq_some'.mp h
      exact Or.inl ⟨q, hw.symm⟩
  | cat s =>
    rw [show tryConvertCell Dtype.float64 (Cell.cat s) =
        (if isNanStr s then some Cell.null else (pyFloat s).map Cell.float) from rfl] at h
    split at h
    · exact Or.inr (Option.some.inj h).symm
    · obtain ⟨q, hq, hw⟩ := Option.map_eq_some'.mp h
      exact Or.inl ⟨q, hw.symm⟩

theorem int16_shape {v w : Cell} (h : tryConvertCell Dtype.int16 v = some w) :
    ∃ n, w = Cell.int n := by
  rw [show tryConvertCell Dtype.int16 v = tryConvertCell.tryConvertInt 16 v from rfl] at h
  cases v with
  | null => exact Option.noConfusion h
  | date y m d => exact Option.noConfusion h
  | int n =>
    rw [show tryConvertCell.tryConvertInt 16 (Cell.int n) =
        (if intFits 16 n then some (Cell.int n) else none) from rfl] at h
    split at h
    · exact ⟨n, (Option.some.inj h).symm⟩
    · exact Option.noConfusion h
  | float q =>
    rw [show tryConvertCell.tryConvertInt 16 (Cell.float q) =
        (if intFits 16 (truncQ q) then some (Cell.int (truncQ q)) else none) from rfl] at h
    split at h
    · exact ⟨truncQ q, (Option.some.inj h).symm⟩
    · exact Option.noConfusion h
  | str s =>
    rw [show tryConvertCell.tryConvertInt 16 (Cell.str s) =
        ((pyInt s).bind fun n => if intFits 16 n then some (Cell.int n) else none) from rfl] at h
    obtain ⟨n, hn, hif⟩ := Option.bind_eq_some.mp h
    split at hif
    · exact ⟨n, (Option.some.inj hif).symm⟩
    · exact Option.noConfusion hif
  | cat s =>
    rw [show tryConvertCell.tryConvertInt 16 (Cell.cat s) =
        ((pyInt s).bind fun n => if intFits 16 n then some (Cell.int n) else none) from rfl] at h
    obtain ⟨n, hn, hif⟩ := Option.bind_eq_some.mp h
    split at hif
    · exact ⟨n, (Option.some.inj hif).symm⟩
    · exact Option.noConfusion hif

/-- C6: amended stores invariant.  After `clean_store_data` succeeds, the
`longitude` column holds only floats or nulls (in particular never the
literal string `N/A`), and the `staff_numbers` column holds only integer
cells, provided every input `longitude` value coerces to `float64` after
the `N/A`-to-`NaN` replacement and every input `staff_numbers` value
coerces to `int16` after letters are stripped.  The spec's identical
guarantee for `latitude` does not hold (see the counterexample): the
source never replaces `N/A` in `latitude`, so its `float64` coercion can
fail and leave the literal string behind. -/
theorem clean_store_behavior {df out : Df}
    (h : cleanStoreData df = Except.ok out)
    (hlong : ∀ r ∈ df, ∀ v, getCell r "longitude" = some v →
        (tryConvertCell Dtype.float64
          (strCellMap (replaceSub "N/A".data "NaN".data) v)).isSome = true)
    (hstaff : ∀ r ∈ df, ∀ v, getCell r "staff_numbers" = some v →
        (tryConvertCell Dtype.int16 (stripLettersCell v)).isSome = true) :
    (∀ w ∈ getColCells out "longitude",
        (∃ q, w = Cell.float q) ∨ w = Cell.null) ∧
    (∀ w ∈ getColCells out "staff_numbers", ∃ n, w = Cell.int n) := by
  obtain ⟨df2, df3, df4, df6, df7, h2, h3, h4, h5, h6, h7, hout⟩ := cleanStoreData_ok_inv h
  obtain ⟨hc3, heq3⟩ := strReplaceCol_ok_inv h3
  obtain ⟨hc4, heq4⟩ := strReplaceCol_ok_inv h4
  obtain ⟨hc6, heq6⟩ := strReplaceCol_ok_inv h6
  have hl7 : ∀ r7 ∈ df7, ∃ v, (∃ r ∈ df, getCell r "longitude" = some v) ∧
      getCell r7 "longitude" =
        some (strCellMap (replaceSub "N/A".data "NaN".data) v) := by
    intro r7 hr7
    obtain ⟨r6, hr6, he76⟩ := parseDate_pres h7 (show "longitude" ≠ "opening_date" by decide) r7 hr7
    rw [heq6] at hr6
    obtain ⟨r5, hr5, hcase⟩ := mem_mapColAt hr6
    have h5some : (getCell r5 "longitude").isSome := by
      simpa using List.all_eq_true.mp hc6 r5 hr5
    rcases hcase with ⟨hnone, _⟩ | ⟨v5, hv5, heqr6⟩
    · rw [hnone] at h5some
      simp at h5some
    · obtain ⟨r4, hr4, he54⟩ := mapColAt_pres (show "longitude" ≠ "staff_numbers" by decide) r5 hr5
      rw [heq4] at hr4
      obtain ⟨r3, hr3, he43⟩ := mapColAt_pres (show "longitude" ≠ "continent" by decide) r4 hr4
      rw [heq3] at hr3
      obtain ⟨r2, hr2, he32⟩ := mapColAt_pres (show "longitude" ≠ "address" by decide) r3 hr3
      obtain ⟨r1, hr1, he21⟩ := country_pres h2 (show "longitude" ≠ "country_code" by decide) r2 hr2
      obtain ⟨r0, hr0, he10⟩ := dropColumn_pres (show "longitude" ≠ "lat" by decide) r1 hr1
      refine ⟨v5, ⟨r0, hr0, ?_⟩, ?_⟩
      · rw [← he10, ← he21, ← he32, ← he43, ← he54]
        exact hv5
      · rw [he76, heqr6, getCell_setCell_self]
  have hs7 : ∀ r7 ∈ df7, ∃ v, (∃ r ∈ df, getCell r "staff_numbers" = some v) ∧
      getCell r7 "staff_numbers" = some (stripLettersCell v) := by
    intro r7 hr7
    obtain ⟨r6, hr6, he76⟩ := parseDate_pres h7 (show "staff_numbers" ≠ "opening_date" by decide) r7 hr7
    rw [heq6] at hr6
    obtain ⟨r5, hr5, he65⟩ := mapColAt_pres (show "staff_numbers" ≠ "longitude" by decide) r6 hr6
    obtain ⟨r4, hr4, hcase⟩ := mem_mapColAt hr5
    have h4some : (getCell r4 "staff_numbers").isSome := by
      simpa using List.all_eq_true.mp h5 r4 hr4
    rcases hcase with ⟨hnone, _⟩ | ⟨v4, hv4, heqr5⟩
    · rw [hnone] at h4some
      simp at h4some
    · rw [heq4] at hr4
      obtain ⟨r3, hr3, he43⟩ := mapColAt_pres (show "staff_numbers" ≠ "continent" by decide) r4 hr4
      rw [heq3] at hr3
      obtain ⟨r2, hr2, he32⟩ := mapColAt_pres (show "staff_numbers" ≠ "address" by decide) r3 hr3
      obtain ⟨r1, hr1, he21⟩ := country_pres h2 (show "staff_numbers" ≠ "country_code" by decide) r2 hr2
      obtain ⟨r0, hr0, he10⟩ := dropColumn_pres (show "staff_numbers" ≠ "lat" by decide) r1 hr1
      refine ⟨v4, ⟨r0, hr0, ?_⟩, ?_⟩
      · rw [← he10, ← he21, ← he32, ← he43]
        exact hv4
      · rw [he76, he65, heqr5, getCell_setCell_self]
  have hcol7long : hasCol df7 "longitude" = true :=
    parseDateColStrict_hasCol h7 "longitude"
      (by rw [heq6]; exact hasCol_mapColAt _ _ hc6)
  have hcol7staff : hasCol df7 "staff_numbers" = true :=
    parseDateColStrict_hasCol h7 "staff_numbers"
      (by rw [heq6]; exact hasCol_mapColAt _ _ (hasCol_mapColAt _ _ h5))
  have hallL : ∀ w ∈ getColCells df7 "longitude",
      tryConvertCell Dtype.float64 w =
        some ((tryConvertCell Dtype.float64 w).getD Cell.null) := by
    intro w hw
    obtain ⟨r7, hr7, hweq⟩ := List.mem_map.mp hw
    obtain ⟨v, ⟨r0, hr0, hv0⟩, hcell⟩ := hl7 r7 hr7
    rw [← hweq, hcell, Option.getD_some]
    obtain ⟨u, hu⟩ := Option.isSome_iff_exists.mp (hlong r0 hr0 v hv0)
    rw [hu, Option.getD_some]
  have hallS : ∀ w ∈ getColCells df7 "staff_numbers",
      tryConvertCell Dtype.int16 w =
        some ((tryConvertCell Dtype.int16 w).getD Cell.null) := by
    intro w hw
    obtain ⟨r7, hr7, hweq⟩ := List.mem_map.mp hw
    obtain ⟨v, ⟨r0, hr0, hv0⟩, hcell⟩ := hs7 r7 hr7
    rw [← hweq, hcell, Option.getD_some]
    obtain ⟨u, hu⟩ := Option.isSome_iff_exists.mp (hstaff r0 hr0 v hv0)
    rw [hu, Option.getD_some]
  have homapL : omap (tryConvertCell Dtype.float64) (getColCells df7 "longitude") =
      some ((getColCells df7 "longitude").map
        (fun w => (tryConvertCell Dtype.float64 w).getD Cell.null)) :=
    omap_eq_some_of_forall hallL
  have homapS : omap (tryConvertCell Dtype.int16) (getColCells df7 "staff_numbers") =
      some ((getColCells df7 "staff_numbers").map
        (fun w => (tryConvertCell Dtype.int16 w).getD Cell.null)) :=
    omap_eq_some_of_forall hallS
  have houtL : getColCells out "longitude" =
      (getColCells df7 "longitude").map
        (fun w => (tryConvertCell Dtype.float64 w).getD Cell.null) := by
    rw [hout, cdt_cons, cdt_col_ne (by decide), astypeStep_col_self hcol7long, homapL]
  have houtS : getColCells out "staff_numbers" =
      (getColCells df7 "staff_numbers").map
        (fun w => (tryConvertCell Dtype.int16 w).getD Cell.null) := by
    rw [hout, cdt_cons, cdt_cons, cdt_cons, cdt_nil]
    have hcolAS : hasCol (astypeStep "latitude" Dtype.float64
        (astypeStep "longitude" Dtype.float64 df7)) "staff_numbers" = true := by
      rw [astypeStep_hasCol, astypeStep_hasCol]
      exact hcol7staff
    rw [astypeStep_col_self hcolAS, astypeStep_col_ne (by decide),
      astypeStep_col_ne (by decide), homapS]
  constructor
  · intro w hw
    rw [houtL] at hw
    obtain ⟨w0, hw0, hweq⟩ := List.mem_map.mp hw
    rw [← hweq]
    exact float64_shape (hallL w0 hw0)
  · intro w hw
    rw [houtS] at hw
    obtain ⟨w0, hw0, hweq⟩ := List.mem_map.mp hw
    rw [← hweq]
    exact int16_shape (hallS w0 hw0)

/-- C6: counterexample to the spec's latitude guarantee.  On a store row
whose `latitude` is the literal string `N/A`, `clean_store_data` succeeds
but the output `latitude` cell is still the literal string `N/A` — not a
float and not null: the source replaces `N/A` only in `longitude`, the
`float64` coercion of `latitude` then fails, and the caught error leaves
the column untouched.  (The same input's `longitude` `N/A` correctly
becomes null.) -/
theorem store_latitude_NA_survives :
    cleanStoreData
        [[("lat", cstr "n"), ("country_code", cstr "GB"),
          ("address", cstr "a"), ("continent", cstr "Europe"),
          ("staff_numbers", cstr "5"), ("longitude", cstr "N/A"),
          ("latitude", cstr "N/A"), ("opening_date", cstr "2020-01-15")]] =
      Except.ok
        [[("country_code", Cell.cat "GB".data), ("address", Cell.str "a".data),
          ("continent", Cell.str "Europe".data), ("staff_numbers", Cell.int 5),
          ("longitude", Cell.null), ("latitude", Cell.str "N/A".data),
          ("opening_date", Cell.date 2020 1 15)]] ∧
    getCell
        [("country_code", Cell.cat "GB".data), ("address", Cell.str "a".data),
         ("continent", Cell.str "Europe".data), ("staff_numbers", Cell.int 5),
         ("longitude", Cell.null), ("latitude", Cell.str "N/A".data),
         ("opening_date", Cell.date 2020 1 15)]
      "latitude" = some (Cell.str "N/A".data) := by
  constructor
  · decide
  · decide

theorem clean_store_behavior_witness :
    (∀ w ∈ getColCells
        [[("country_code", Cell.cat "GB".data), ("address", Cell.str "a".data),
          ("continent", Cell.str "Europe".data), ("staff_numbers", Cell.int 5),
          ("longitude", Cell.null), ("latitude", Cell.str "N/A".data),
          ("opening_date", Cell.date 2020 1 15)]] "longitude",
        (∃ q, w = Cell.float q) ∨ w = Cell.null) ∧
    (∀ w ∈ getColCells
        [[("country_code", Cell.cat "GB".data), ("address", Cell.str "a".data),
          ("continent", Cell.str "Europe".data), ("staff_numbers", Cell.int 5),
          ("longitude", Cell.null), ("latitude", Cell.str "N/A".data),
          ("opening_date", Cell.date 2020 1 15)]] "staff_numbers",
        ∃ n, w = Cell.int n) := by
  have h : cleanStoreData
      [[("lat", cstr "n"), ("country_code", cstr "GB"),
        ("address", cstr "a"), ("continent", cstr "Europe"),
        ("staff_numbers", cstr "5"), ("longitude", cstr "N/A"),
        ("latitude", cstr "N/A"), ("opening_date", cstr "2020-01-15")]] =
    Except.ok
      [[("country_code", Cell.cat "GB".data), ("address", Cell.str "a".data),
        ("continent", Cell.str "Europe".data), ("staff_numbers", Cell.int 5),
        ("longitude", Cell.null), ("latitude", Cell.str "N/A".data),
        ("opening_date", Cell.date 2020 1 15)]] := by decide
  refine clean_store_behavior h ?_ ?_
  · intro r hr v hv
    rw [List.mem_singleton] at hr
    subst hr
    rw [show getCell
        [("lat", cstr "n"), ("country_code", cstr "GB"),
         ("address", cstr "a"), ("continent", cstr "Europe"),
         ("staff_numbers", cstr "5"), ("longitude", cstr "N/A"),
         ("latitude", cstr "N/A"), ("opening_date", cstr "2020-01-15")]
        "longitude" = some (cstr "N/A") from rfl] at hv
    injection hv with hv
    subst hv
    decide
  · intro r hr v hv
    rw [List.mem_singleton] at hr
    subst hr
    rw [show getCell
        [("lat", cstr "n"), ("country_code", cstr "GB"),
         ("address", cstr "a"), ("continent", cstr "Europe"),
         ("staff_numbers", cstr "5"), ("longitude", cstr "N/A"),
         ("latitude", cstr "N/A"), ("opening_date", cstr "2020-01-15")]
        "staff_numbers" = some (cstr "5") from rfl] at hv
    injection hv with hv
    subst hv
    decide

/-! ## C1: which passes can and cannot raise -/

theorem cleanPhoneNumbers_total {df : Df} (hcol : hasCol df "phone_number" = true) :
    ∃ d, cleanPhoneNumbers df = Except.ok d := by
  rw [cleanPhoneNumbers, if_pos hcol]
  exact ⟨_, rfl⟩

theorem cleanEmailAddresses_total {df : Df} (hcol : hasCol df "email_address" = true) :
    ∃ d, cleanEmailAddresses df = Except.ok d := by
  rw [cleanEmailAddresses, strReplaceCol, if_pos hcol]
  exact ⟨_, rfl⟩

theorem cleanCountryData_total {df : Df} (hcol : hasCol df "country_code" = true) :
    ∃ d, cleanCountryData df = Except.ok d := by
  rw [cleanCountryData, if_pos hcol]
  exact ⟨_, rfl⟩

/-- C1: amended never-raises guarantee.  The guarded passes really are
total on any frame holding their required columns, whatever the cell
values: `clean_country_data`, `clean_email_addresses` and
`clean_phone_numbers` given their column, `convert_dates` given all the
named date columns, and `clean_addresses` given an all-string `address`
column.  The spec's universal claim fails for the unguarded code paths
(see the counterexample): `convert_product_weights` and the strict date
parse and `int64` cast inside `clean_card_data` raise on malformed data
values even when every required column is present. -/
theorem guarded_passes_never_raise (df : Df) (cols : List String)
    (hcountry : hasCol df "country_code" = true)
    (hemail : hasCol df "email_address" = true)
    (hphone : hasCol df "phone_number" = true)
    (haddr : hasCol df "address" = true)
    (hstr : ∀ r ∈ df, ∀ v, getCell r "address" = some v → ∃ s, v = Cell.str s)
    (hdates : ∀ c ∈ cols, hasCol df c = true) :
    (∃ d, cleanCountryData df = Except.ok d) ∧
    (∃ d, cleanEmailAddresses df = Except.ok d) ∧
    (∃ d, cleanPhoneNumbers df = Except.ok d) ∧
    (∃ d, cleanAddresses df = Except.ok d) ∧
    (∃ d, convertDates df cols = Except.ok d) :=
  ⟨cleanCountryData_total hcountry,
   cleanEmailAddresses_total hemail,
   cleanPhoneNumbers_total hphone,
   ⟨_, cleanAddresses_ok haddr hstr⟩,
   convertDates_total cols df hdates⟩

/-- C1: counterexample to the universal never-raises claim.  A malformed
weight string containing an `x` with no ` x ` separator makes
`convert_product_weights` raise `ValueError`: the split yields a single
element that still contains the `x`, so the unguarded `float(factors[0])`
fails before `factors[1]` is ever subscripted.  And a card frame with
every required column but an unparsable `date_payment_confirmed` value
makes `clean_card_data` raise `ValueError` in its unguarded
`.apply(parse)` — malformed *data*, not a missing column, aborts both. -/
theorem cleaning_raises_on_malformed_data :
    convertProductWeights "box".data = Except.error PyErr.valueError ∧
    cleanCardData
        [[("card_number", cstr "1234"),
          ("date_payment_confirmed", cstr "2020-13-05")]] =
      Except.error PyErr.valueError := by
  constructor
  · decide
  · decide

theorem guarded_passes_never_raise_witness :
    (∃ d, cleanCountryData
        [[("country_code", cstr "GB"), ("email_address", cstr "a@@b.c"),
          ("phone_number", cstr "+44 123"), ("address", cstr "1 main st"),
          ("date_col", cstr "2020-01-15")]] = Except.ok d) ∧
    (∃ d, cleanEmailAddresses
        [[("country_code", cstr "GB"), ("email_address", cstr "a@@b.c"),
          ("phone_number", cstr "+44 123"), ("address", cstr "1 main st"),
          ("date_col", cstr "2020-01-15")]] = Except.ok d) ∧
    (∃ d, cleanPhoneNumbers
        [[("country_code", cstr "GB"), ("email_address", cstr "a@@b.c"),
          ("phone_number", cstr "+44 123"), ("address", cstr "1 main st"),
          ("date_col", cstr "2020-01-15")]] = Except.ok d) ∧
    (∃ d, cleanAddresses
        [[("country_code", cstr "GB"), ("email_address", cstr "a@@b.c"),
          ("phone_number", cstr "+44 123"), ("address", cstr "1 main st"),
          ("date_col", cstr "2020-01-15")]] = Except.ok d) ∧
    (∃ d, convertDates
        [[("country_code", cstr "GB"), ("email_address", cstr "a@@b.c"),
          ("phone_number", cstr "+44 123"), ("address", cstr "1 main st"),
          ("date_col", cstr "2020-01-15")]] ["date_col"] = Except.ok d) := by
  refine guarded_passes_never_raise _ _ (by decide) (by decide) (by decide) (by decide)
    ?_ (by decide)
  intro r hr v hv
  rw [List.mem_singleton] at hr
  subst hr
  rw [show getCell
      [("country_code", cstr "GB"), ("email_address", cstr "a@@b.c"),
       ("phone_number", cstr "+44 123"), ("address", cstr "1 main st"),
       ("date_col", cstr "2020-01-15")]
      "address" = some (cstr "1 main st") from rfl] at hv
  injection hv with hv
  subst hv
  exact ⟨"1 main st".data, rfl⟩
